import Mathlib

/-!
Verification of the rag-agentic-framework core algorithms against its
natural-language specification.

The Python sources are shallowly embedded: strings become `List Char`
(restricted to the ASCII behaviour of `str.lower` / `str.strip` / `\s`),
Python `dict`s become insertion-ordered association lists,
floating-point scores become `ℚ`, `random.random()` draws become an
explicit stream `ℕ → ℚ`, and loops whose termination is not structural
are given an explicit fuel argument returning `Option` (`none` models
non-termination of the Python loop).
-/

/-- A JSON-ish value, the element type of the Python `Dict[str, Any]`
metadata / context dictionaries (restricted to scalars, which is all the
analysed code paths store or compare). -/
inductive Json where
  | str (s : String)
  | int (n : Int)
  | bool (b : Bool)
  | null
deriving DecidableEq, Repr

/-- Lookup in an insertion-ordered association list, the embedding of
Python `dict.get` / `key in dict`. -/
def dictGet {α : Type} (d : List (String × α)) (k : String) : Option α :=
  match d with
  | [] => none
  | (k', v) :: t => if k' = k then some v else dictGet t k

/-- Python `dict` assignment `d[k] = v`: updates the value in place if the
key is present (keeping its original position), otherwise appends. -/
def dictInsert {α : Type} (d : List (String × α)) (k : String) (v : α) :
    List (String × α) :=
  match d with
  | [] => [(k, v)]
  | (k', v') :: t => if k' = k then (k, v) :: t else (k', v') :: dictInsert t k v

/-- Python slice `content[a:b]` on a list (both bounds non-negative). -/
def pySlice {α : Type} (l : List α) (a b : ℕ) : List α :=
  (l.drop a).take (b - a)

/-! ## Fixed-size chunking, `src/src/document_processing/processor.py`,
`DocumentProcessor._fixed_size_chunking` (lines 234-267).

The Python `while start < len(content)` loop appends `content[start:end]`
with `end = min(start + chunk_size, len(content))` and then advances
`start = end - chunk_overlap if end < len(content) else end`.  The loop
does not terminate for every parameter choice (e.g. `chunk_size = 0`), so
the embedding carries fuel; `none` models the non-terminating run. -/

/-- One loop of `_fixed_size_chunking` from position `start`:
the list of chunk contents produced from `start` onwards. -/
def fixedChunkLoop (content : List Char) (S O : ℕ) : ℕ → ℕ → Option (List (List Char))
  | 0, _ => none
  | fuel + 1, start =>
    if start < content.length then
      let e := min (start + S) content.length
      let chunk := pySlice content start e
      let start' := if e < content.length then e - O else e
      match fixedChunkLoop content S O fuel start' with
      | none => none
      | some rest => some (chunk :: rest)
    else some []

/-- `DocumentProcessor._fixed_size_chunking` (src/src): chunk contents of
`content` with window `S = config.chunk_size` and overlap
`O = config.chunk_overlap`.  Fuel `content.length + 1` suffices whenever
the Python loop terminates (each step advances `start` by at least
`S - O ≥ 1` when `O < S`). -/
def fixedSizeChunking (content : List Char) (S O : ℕ) : Option (List (List Char)) :=
  fixedChunkLoop content S O (content.length + 1) 0

/-! ## Fixed-size chunking, `src/mvp/document_processor/processor.py`,
`DocumentProcessor._fixed_size_chunking` (lines 47-54).

This variant appends `content[start:start + chunk_size]` and advances
`start += chunk_size - overlap` unconditionally (no `min`, no special
case for the final window). -/

/-- One loop of the mvp `_fixed_size_chunking` from position `start`. -/
def mvpFixedChunkLoop (content : List Char) (S O : ℕ) : ℕ → ℕ → Option (List (List Char))
  | 0, _ => none
  | fuel + 1, start =>
    if start < content.length then
      let chunk := pySlice content start (start + S)
      match mvpFixedChunkLoop content S O fuel (start + (S - O)) with
      | none => none
      | some rest => some (chunk :: rest)
    else some []

/-- mvp `DocumentProcessor._fixed_size_chunking` (defaults
`chunk_size = 512`, `overlap = 50` in the source; kept as parameters). -/
def mvpFixedSizeChunking (content : List Char) (S O : ℕ) : Option (List (List Char)) :=
  mvpFixedChunkLoop content S O (content.length + 1) 0

/-- Ceiling division on naturals, `ceil(a / b)` for `b > 0`. -/
def natCeilDiv (a b : ℕ) : ℕ := (a + b - 1) / b

/-- Concatenation of chunks with the first `O` characters of every chunk
after the first removed (the reconstruction operation of spec §8). -/
def reassemble (O : ℕ) : List (List Char) → List (List Char)
  | [] => []
  | c :: rest => c :: rest.map (List.drop O)

/-- Flattened reconstruction of an overlapped chunk list. -/
def reconstruct (O : ℕ) (chunks : List (List Char)) : List Char :=
  (reassemble O chunks).flatten

/-! ## Recursive chunking, `src/src/document_processing/processor.py`,
`DocumentProcessor._recursive_chunking` (lines 269-336).

The Python splits on the regex `(?:^|\n)#+\s+(.+?)(?=\n#+\s+|\Z)` (with
`re.split`, whose output interleaves the unmatched gaps with the captured
group), skips whitespace-only pieces, keeps small pieces whole, and packs
the paragraphs of oversized pieces (split on `\n\s*\n`) greedily up to
`chunk_size`.  The regex engine below implements exactly the Python
backtracking semantics of those two patterns: `^` anchors only at
position 0 (no MULTILINE), `.` does not match a newline, `#+` and `\s+`
are greedy, `(.+?)` is lazy, `\Z` is end of string. -/

/-- Python `\s` on ASCII: space, tab, newline, carriage return, vertical
tab, form feed. -/
def isPySpace (c : Char) : Bool :=
  c = ' ' || c = '\t' || c = '\n' || c = '\r' || c.val = 11 || c.val = 12

/-- Length of the maximal run of characters satisfying `p` starting at
index `i`. -/
def runLen (p : Char → Bool) (s : List Char) (i : ℕ) : ℕ :=
  ((s.drop i).takeWhile p).length

/-- The lookahead `(?=\n#+\s+|\Z)` of the section pattern, tested at
index `t`. -/
def sectionLookahead (s : List Char) (t : ℕ) : Bool :=
  t = s.length ||
    (decide (s[t]? = some '\n') &&
     decide (0 < runLen (· = '#') s (t + 1)) &&
     (s[t + 1 + runLen (· = '#') s (t + 1)]?).any isPySpace)

/-- Lazy expansion of the capture `(.+?)` starting at index `t`: consume
one non-newline character at a time (at least one), returning the first
end position at which the lookahead holds. -/
def lazyCapEnd (s : List Char) : ℕ → ℕ → Option ℕ
  | 0, _ => none
  | fuel + 1, t =>
    match s[t]? with
    | some c =>
      if c = '\n' then none
      else if sectionLookahead s (t + 1) then some (t + 1)
      else lazyCapEnd s fuel (t + 1)
    | none => none

/-- Body of the section pattern after its `(?:^|\n)` prefix at index `q`:
`#+` greedy (forced maximal, since backtracking it leaves a `'#'` for
`\s+`), `\s+` greedy over `j = m, m-1, …, 1` characters of the maximal
whitespace run, then the lazy capture.  Returns `(capStart, capEnd)`;
the match ends at `capEnd` (the lookahead is zero-width). -/
def sectionBodyAt (s : List Char) (q : ℕ) : Option (ℕ × ℕ) :=
  let h := runLen (· = '#') s q
  if h = 0 then none
  else
    let m := runLen isPySpace s (q + h)
    if m = 0 then none
    else
      (List.range m).findSome? fun k =>
        let j := m - k
        let c0 := q + h + j
        (lazyCapEnd s (s.length + 1) c0).map fun ce => (c0, ce)

/-- A match of the section pattern starting at index `p`: the `(?:^|\n)`
prefix matches `^` only at `p = 0` (tried first), else consumes a
newline at `p`. -/
def sectionMatchAt (s : List Char) (p : ℕ) : Option (ℕ × ℕ) :=
  if p = 0 then
    match sectionBodyAt s 0 with
    | some r => some r
    | none => if s[0]? = some '\n' then sectionBodyAt s 1 else none
  else if s[p]? = some '\n' then sectionBodyAt s (p + 1) else none

/-- Leftmost match of the section pattern at a position `≥ p`:
`(matchStart, capStart, capEnd)`. -/
def findSecMatch (s : List Char) : ℕ → ℕ → Option (ℕ × ℕ × ℕ)
  | 0, _ => none
  | fuel + 1, p =>
    if s.length < p then none
    else match sectionMatchAt s p with
      | some (c0, ce) => some (p, c0, ce)
      | none => findSecMatch s fuel (p + 1)

/-- The scanning loop of `re.split` for the section pattern: unmatched
gaps interleaved with the captured groups (the non-captured part of each
match — the prefix newline, the `#`s and the whitespace — is dropped,
exactly as `re.split` does with one capturing group). -/
def scanSecSplit (s : List Char) : ℕ → ℕ → List (List Char)
  | 0, _ => []
  | fuel + 1, cur =>
    match findSecMatch s (s.length + 1) cur with
    | none => [pySlice s cur s.length]
    | some (p, c0, ce) => pySlice s cur p :: pySlice s c0 ce :: scanSecSplit s fuel ce

/-- `re.split(r"(?:^|\n)#+\s+(.+?)(?=\n#+\s+|\Z)", content)`: every match
consumes at least two characters, so `length + 2` fuel always suffices. -/
def reSplitSections (s : List Char) : List (List Char) :=
  scanSecSplit s (s.length + 2) 0

/-- A match of `\n\s*\n` starting at index `p`: a newline, then `\s*`
greedy with backtracking — the largest `t` with a newline right after
`t` further whitespace characters.  Returns the match end. -/
def paraMatchAt (s : List Char) (p : ℕ) : Option ℕ :=
  if s[p]? = some '\n' then
    let m := runLen isPySpace s (p + 1)
    (List.range (m + 1)).findSome? fun k =>
      let t := m - k
      if s[p + 1 + t]? = some '\n' then some (p + 1 + t + 1) else none
  else none

/-- Leftmost match of `\n\s*\n` at a position `≥ p`: `(start, end)`. -/
def findParaMatch (s : List Char) : ℕ → ℕ → Option (ℕ × ℕ)
  | 0, _ => none
  | fuel + 1, p =>
    if s.length < p then none
    else match paraMatchAt s p with
      | some e => some (p, e)
      | none => findParaMatch s fuel (p + 1)

/-- The scanning loop of `re.split(r"\n\s*\n", section)` (no capturing
group: just the gaps between matches). -/
def scanParaSplit (s : List Char) : ℕ → ℕ → List (List Char)
  | 0, _ => []
  | fuel + 1, cur =>
    match findParaMatch s (s.length + 1) cur with
    | none => [pySlice s cur s.length]
    | some (p, e) => pySlice s cur p :: scanParaSplit s fuel e

/-- `re.split(r"\n\s*\n", section)`: every match consumes at least two
characters, so `length + 2` fuel always suffices. -/
def reSplitParagraphs (s : List Char) : List (List Char) :=
  scanParaSplit s (s.length + 2) 0

/-- Python `not piece.strip()`: the piece is empty or all whitespace. -/
def stripEmpty (l : List Char) : Bool := l.all isPySpace

/-- One iteration of the paragraph-packing loop of `_recursive_chunking`
(state: chunks emitted so far, running `current_chunk`). -/
def paraStep (size : ℕ) (st : List (List Char) × List Char) (p : List Char) :
    List (List Char) × List Char :=
  let (chunks, cur) := st
  if stripEmpty p then (chunks, cur)
  else
    let (chunks1, cur1) :=
      if size < cur.length + p.length then
        if cur ≠ [] then (chunks ++ [cur], ([] : List Char)) else (chunks, cur)
      else (chunks, cur)
    (chunks1, if cur1 ≠ [] then cur1 ++ '\n' :: '\n' :: p else p)

/-- The paragraph-packing loop of `_recursive_chunking` over the
paragraphs of one oversized section, including the final
`if current_chunk:` flush. -/
def packParagraphs (size : ℕ) (ps : List (List Char)) : List (List Char) :=
  let st := ps.foldl (paraStep size) ([], [])
  if st.2 ≠ [] then st.1 ++ [st.2] else st.1

/-- `DocumentProcessor._recursive_chunking` (src/src): chunk contents only
(ids and `chunk_index` are derived bookkeeping).  Whitespace-only pieces
are skipped, pieces of length `≤ chunk_size` become one chunk each, and
oversized pieces are paragraph-packed. -/
def recursiveChunking (content : List Char) (size : ℕ) : List (List Char) :=
  (reSplitSections content).foldl
    (fun chunks piece =>
      if stripEmpty piece then chunks
      else if piece.length ≤ size then chunks ++ [piece]
      else chunks ++ packParagraphs size (reSplitParagraphs piece))
    []

/-! ## Recursive chunking, `src/mvp/document_processor/processor.py`,
`DocumentProcessor._recursive_chunking` (lines 56-84): paragraphs are
`content.split('\n\n')` (plain substring split), sentences come from
`re.split(r'(?<=[.!?])\s+', content)`, and the fallback is the mvp
fixed-size chunker with its default `overlap = 50`. -/

/-- First occurrence of the exact separator `"\n\n"` at index `≥ p`. -/
def findNN (s : List Char) : ℕ → ℕ → Option ℕ
  | 0, _ => none
  | fuel + 1, p =>
    if s.length < p then none
    else if s[p]? = some '\n' && s[p + 1]? = some '\n' then some p
    else findNN s fuel (p + 1)

/-- The scanning loop of `content.split('\n\n')`. -/
def scanNNSplit (s : List Char) : ℕ → ℕ → List (List Char)
  | 0, _ => []
  | fuel + 1, cur =>
    match findNN s (s.length + 1) cur with
    | none => [pySlice s cur s.length]
    | some p => pySlice s cur p :: scanNNSplit s fuel (p + 2)

/-- Python `content.split('\n\n')` (non-overlapping, left to right). -/
def splitOnNN (s : List Char) : List (List Char) :=
  scanNNSplit s (s.length + 2) 0

/-- A match of `(?<=[.!?])\s+` starting at index `p`: the zero-width
lookbehind requires a sentence terminator at `p - 1`, then `\s+` greedily
takes the whole whitespace run.  Returns the match end. -/
def sentenceMatchAt (s : List Char) (p : ℕ) : Option ℕ :=
  if 0 < p &&
     (s[p - 1]? = some '.' || s[p - 1]? = some '!' || s[p - 1]? = some '?') then
    let m := runLen isPySpace s p
    if m = 0 then none else some (p + m)
  else none

/-- Leftmost match of the sentence-boundary pattern at a position `≥ p`. -/
def findSentMatch (s : List Char) : ℕ → ℕ → Option (ℕ × ℕ)
  | 0, _ => none
  | fuel + 1, p =>
    if s.length < p then none
    else match sentenceMatchAt s p with
      | some e => some (p, e)
      | none => findSentMatch s fuel (p + 1)

/-- The scanning loop of `re.split(r'(?<=[.!?])\s+', content)`. -/
def scanSentSplit (s : List Char) : ℕ → ℕ → List (List Char)
  | 0, _ => []
  | fuel + 1, cur =>
    match findSentMatch s (s.length + 1) cur with
    | none => [pySlice s cur s.length]
    | some (p, e) => pySlice s cur p :: scanSentSplit s fuel e

/-- `re.split(r'(?<=[.!?])\s+', content)`. -/
def reSplitSentences (s : List Char) : List (List Char) :=
  scanSentSplit s (s.length + 2) 0

/-- One iteration of the mvp sentence-packing loop.  Unlike the src/src
packer it has no whitespace skip, the flush is unguarded (it can emit an
empty chunk), and a space is always prepended in the accumulate branch. -/
def mvpSentStep (size : ℕ) (st : List (List Char) × List Char) (sen : List Char) :
    List (List Char) × List Char :=
  let (chunks, cur) := st
  if size < cur.length + sen.length then (chunks ++ [cur], sen)
  else (chunks, cur ++ ' ' :: sen)

/-- The mvp sentence-packing loop including the final
`if current_chunk:` flush. -/
def mvpPackSentences (size : ℕ) (ss : List (List Char)) : List (List Char) :=
  let st := ss.foldl (mvpSentStep size) ([], [])
  if st.2 ≠ [] then st.1 ++ [st.2] else st.1

/-- mvp `DocumentProcessor._recursive_chunking`.  The recursion on
paragraphs is bounded by `content.length` (each of two or more paragraphs
is strictly shorter than the split text), so fuel `length + 1` suffices;
the fixed-size fallback keeps the source default `overlap = 50` and may
itself diverge (`none`). -/
def mvpRecursiveChunking (S : ℕ) : ℕ → List Char → Option (List (List Char))
  | 0, _ => none
  | fuel + 1, content =>
    if content.length ≤ S then some [content]
    else
      let ps := splitOnNN content
      if 1 < ps.length then
        ps.foldl
          (fun acc p =>
            match acc with
            | none => none
            | some l =>
              match mvpRecursiveChunking S fuel p with
              | none => none
              | some l2 => some (l ++ l2))
          (some [])
      else
        let ss := reSplitSentences content
        if 1 < ss.length then some (mvpPackSentences S ss)
        else mvpFixedSizeChunking content S 50

/-- The chunking dispatch of mvp `DocumentProcessor.process_document`
(lines 29-45): `'fixed'` and `'recursive'` with the source defaults
(`chunk_size = 512`, `overlap = 50`), any other strategy raises
`ValueError(f"Unknown chunking strategy: {chunking_strategy}")`. -/
def mvpProcessDocumentChunks (strategy : String) (content : List Char) :
    Except String (Option (List (List Char))) :=
  if strategy = "fixed" then .ok (mvpFixedSizeChunking content 512 50)
  else if strategy = "recursive" then .ok (mvpRecursiveChunking 512 (content.length + 1) content)
  else .error ("Unknown chunking strategy: " ++ strategy)

/-- The strategy names accepted by the `if/elif` chain of src/src
`DocumentProcessor._chunk_document` (lines 213-232). -/
def chunkStrategySupported (strategy : String) : Bool :=
  strategy = "fixed" || strategy = "recursive" || strategy = "semantic" ||
    strategy = "medical_section"

/-- The error surface of src/src `DocumentProcessor._chunk_document`: an
unsupported strategy raises `FrameworkException` with code
`UNSUPPORTED_CHUNKING_STRATEGY`; a supported one dispatches to the
corresponding chunker (fixed and recursive are modelled above as
`fixedSizeChunking` and `recursiveChunking`; `semantic` falls back to
recursive in the source).  No strategy branch validates `chunk_size`. -/
def chunkDocumentError (strategy : String) : Option String :=
  if chunkStrategySupported strategy then none
  else some "UNSUPPORTED_CHUNKING_STRATEGY"

/-! ## Vector database, `src/src/vector_db/client.py`.

`MockVectorDB` stores documents in a Python dict (insertion-ordered
association list here).  Its `search` draws one `np.random.random()` per
scored document — the draws are made explicit as a stream `rand : ℕ → ℚ`
indexed by draw count; scores are `0.5 + 0.5 * rand k`. -/

/-- `VectorDBDocument` (pydantic model, lines 21-27). -/
structure VectorDBDocument where
  id : String
  text : String
  metadata : List (String × Json)
  embedding : Option (List ℚ)
deriving DecidableEq, Repr

/-- `SearchResult` (lines 29-34). -/
structure SearchResult where
  document : VectorDBDocument
  score : ℚ
  rank : ℕ
deriving DecidableEq, Repr

/-- `SearchRequest` (lines 36-42); `top_k` is a Python `int` (default 5),
kept as `ℤ` to preserve Python slice semantics. -/
structure SearchRequest where
  query : String
  query_embedding : Option (List ℚ)
  filter : List (String × Json)
  top_k : ℤ
deriving DecidableEq, Repr

/-- Python truthiness of an `Optional[List[float]]` field (`None` and
`[]` are both falsy). -/
def pyTruthyList (e : Option (List ℚ)) : Bool :=
  match e with
  | none => false
  | some l => !l.isEmpty

/-- `all(key in doc.metadata and doc.metadata[key] == value for key,
value in request.filter.items())`. -/
def matchesFilter (filter : List (String × Json)) (doc : VectorDBDocument) : Bool :=
  filter.all fun kv =>
    match dictGet doc.metadata kv.1 with
    | some v => v = kv.2
    | none => false

/-- ASCII `str.lower` on one character (Python `str.lower` restricted to
the ASCII range, which covers all analysed inputs). -/
def pyLowerChar (c : Char) : Char :=
  match c with
  | 'A' => 'a' | 'B' => 'b' | 'C' => 'c' | 'D' => 'd' | 'E' => 'e' | 'F' => 'f'
  | 'G' => 'g' | 'H' => 'h' | 'I' => 'i' | 'J' => 'j' | 'K' => 'k' | 'L' => 'l'
  | 'M' => 'm' | 'N' => 'n' | 'O' => 'o' | 'P' => 'p' | 'Q' => 'q' | 'R' => 'r'
  | 'S' => 's' | 'T' => 't' | 'U' => 'u' | 'V' => 'v' | 'W' => 'w' | 'X' => 'x'
  | 'Y' => 'y' | 'Z' => 'z'
  | c => c

/-- The scan of `MockVectorDB.search` when a query embedding is present
(lines 307-329): one similarity draw per document with a truthy
embedding (drawn *before* the filter check, so skipped documents still
consume a draw), appended when the filter is empty or matches; the
initial `rank` is the 1-based position in the full document iteration. -/
def mockScanEmb (rand : ℕ → ℚ) (filter : List (String × Json)) :
    List (String × VectorDBDocument) → ℕ → ℕ → List SearchResult
  | [], _, _ => []
  | (_, doc) :: rest, i, c =>
    if pyTruthyList doc.embedding then
      let similarity := 1/2 + 1/2 * rand c
      if filter ≠ [] ∧ ¬ matchesFilter filter doc then
        mockScanEmb rand filter rest (i + 1) (c + 1)
      else
        { document := doc, score := similarity, rank := i + 1 } ::
          mockScanEmb rand filter rest (i + 1) (c + 1)
    else mockScanEmb rand filter rest (i + 1) c

/-- Python substring containment `sub in l`. -/
def isSubstring (sub : List Char) : List Char → Bool
  | [] => sub.isEmpty
  | c :: rest => sub.isPrefixOf (c :: rest) || isSubstring sub rest

/-- The scan of `MockVectorDB.search` for a plain text query
(lines 342-365): substring containment of the lower-cased query in the
lower-cased document text, then the same draw/filter/append logic. -/
def mockScanText (rand : ℕ → ℚ) (queryLower : List Char) (filter : List (String × Json)) :
    List (String × VectorDBDocument) → ℕ → ℕ → List SearchResult
  | [], _, _ => []
  | (_, doc) :: rest, i, c =>
    if isSubstring queryLower (doc.text.toList.map pyLowerChar) then
      let score := 1/2 + 1/2 * rand c
      if filter ≠ [] ∧ ¬ matchesFilter filter doc then
        mockScanText rand queryLower filter rest (i + 1) (c + 1)
      else
        { document := doc, score := score, rank := i + 1 } ::
          mockScanText rand queryLower filter rest (i + 1) (c + 1)
    else mockScanText rand queryLower filter rest (i + 1) c

/-- Stable insertion for a descending sort: `x` goes before the first
strictly smaller score, hence after every earlier element of equal
score — the behaviour of Python `list.sort(key=..., reverse=True)`,
which is stable. -/
def insertDesc (x : SearchResult) : List SearchResult → List SearchResult
  | [] => [x]
  | y :: ys => if y.score < x.score then x :: y :: ys else y :: insertDesc x ys

/-- Stable descending sort by score. -/
def stableSortDesc (l : List SearchResult) : List SearchResult :=
  l.foldl (fun acc x => insertDesc x acc) []

/-- Python slice `l[:n]` for an `int` bound (negative counts from the
end). -/
def pyTake {α : Type} (n : ℤ) (l : List α) : List α :=
  if 0 ≤ n then l.take n.toNat else l.take ((l.length : ℤ) + n).toNat

/-- The final rank rewrite of `MockVectorDB.search`
(`result.rank = i + 1` over the truncated list). -/
def rerank (l : List SearchResult) : List SearchResult :=
  l.mapIdx fun i r => { r with rank := i + 1 }

/-- `MockVectorDB.search` (lines 301-375) over the stored documents
`db` with random stream `rand`. -/
def mockSearch (rand : ℕ → ℚ) (db : List (String × VectorDBDocument))
    (req : SearchRequest) : List SearchResult :=
  if pyTruthyList req.query_embedding then
    rerank (pyTake req.top_k (stableSortDesc (mockScanEmb rand req.filter db 0 0)))
  else
    rerank (pyTake req.top_k
      (stableSortDesc (mockScanText rand (req.query.toList.map pyLowerChar) req.filter db 0 0)))

/-- State of a `VectorDBClient` backed by `MockVectorDB`:
the configured embedding dimension (`VectorDBConfig.embedding_dimension`)
and the stored documents. -/
structure VectorDBState where
  embedding_dimension : ℕ
  documents : List (String × VectorDBDocument)
deriving DecidableEq, Repr

/-- `VectorDBClient.index_document` (lines 99-138) delegating to
`MockVectorDB.index_document` (lines 285-290): a missing embedding
raises `MISSING_EMBEDDING`, re-raised by the surrounding handler as
`FrameworkException` with code `INDEXING_ERROR`; otherwise the document
is stored unconditionally — no dimension check exists anywhere. -/
def indexDocument (st : VectorDBState) (doc : VectorDBDocument) :
    Except String String × VectorDBState :=
  match doc.embedding with
  | none => (.error "INDEXING_ERROR", st)
  | some _ => (.ok doc.id,
      { st with documents := dictInsert st.documents doc.id doc })

/-! ## Agent orchestrator, `src/src/agent_orchestration/orchestrator.py`,
`AgentOrchestrator.process_query` (lines 202-299).

External collaborators are explicit parameters: `adkResolve` models the
`self.adk.get_agent` / `create_agent` resolution inside
`_initialize_agent_in_session`, `adkExec` models
`self.adk.execute_agent`.  A raised-and-propagated Python exception is
`Except.error`; a *returned* error payload (`{"error": True, ...}`) is
`QueryOutcome.failure`.  In-place `dict` mutations that happen before an
exception persist in the returned state, as in Python.  All
`datetime.now()` timestamps of one call are collapsed into the single
parameter `now`. -/

/-- A session history entry (`{"role", "content", "timestamp"}`, plus
`"metadata"` on assistant entries; absent keys are the empty list). -/
structure Message where
  role : String
  content : String
  timestamp : String
  metadata : List (String × Json)
deriving DecidableEq, Repr

/-- An agent registered in a session by `_initialize_agent_in_session`. -/
structure SessionAgent where
  provider : String
  external_id : Option String
  name : String
deriving DecidableEq, Repr

/-- A session dict as built by `create_session` (lines 128-138). -/
structure Session where
  user_id : String
  created_at : String
  updated_at : String
  status : String
  metadata : List (String × Json)
  history : List Message
  agents : List (String × SessionAgent)
  context : List (String × Json)
deriving DecidableEq, Repr

/-- An agent configuration; `provider` is read with
`agent_config.get("provider", "local")`. -/
structure AgentConfig where
  name : String
  provider : Option String
  external_id : Option String
  model : Option String
deriving DecidableEq, Repr

/-- Orchestrator state: loaded agent configurations, the configured
`agent_orchestration.default_agent_id`, and the active sessions. -/
structure OrchState where
  agent_configs : List (String × AgentConfig)
  default_agent_id : Option String
  active_sessions : List (String × Session)
deriving DecidableEq, Repr

/-- The payload returned by an agent execution (`{"response", "metadata"}`). -/
structure ExecResult where
  response : String
  metadata : List (String × Json)
deriving DecidableEq, Repr

/-- The value returned by `process_query`: either the success dict of
lines 275-281 or the error dict of lines 295-299 (`error=True`). -/
inductive QueryOutcome where
  | success (response : String) (session_id : String) (agent_id : String)
      (metadata : List (String × Json)) (timestamp : String)
  | failure (message : String) (session_id : String)
deriving DecidableEq, Repr

/-- `AgentOrchestrator._select_primary_agent` (lines 301-322): the
configured default agent if present in the configurations, else the
first configured agent, else a raised
`ValueError("No agents available for processing query")`. -/
def selectPrimaryAgent (st : OrchState) : Except String String :=
  match st.default_agent_id with
  | some d =>
    if (dictGet st.agent_configs d).isSome then .ok d
    else match st.agent_configs with
      | [] => .error "No agents available for processing query"
      | (k, _) :: _ => .ok k
  | none =>
    match st.agent_configs with
    | [] => .error "No agents available for processing query"
    | (k, _) :: _ => .ok k

/-- The `except Exception` handler of `process_query` (lines 283-299):
append a system-role entry `"Error: ..."` to the session history and
return the structured error payload (the session stays in
`active_sessions`, its status untouched). -/
def catchQueryError (st : OrchState) (session_id : String) (sess : Session)
    (emsg : String) (now : String) : Except String QueryOutcome × OrchState :=
  let sessE := { sess with history := sess.history ++
    [{ role := "system", content := "Error: " ++ emsg, timestamp := now, metadata := [] }] }
  (.ok (.failure ("Failed to process query: " ++ emsg) session_id),
   { st with active_sessions := dictInsert st.active_sessions session_id sessE })

/-- `AgentOrchestrator._initialize_agent_in_session` (lines 324-373),
returning the updated `session["agents"]` or the raised error. -/
def initializeAgentInSession (adkResolve : AgentConfig → Except String String)
    (st : OrchState) (agent_id : String) (agents : List (String × SessionAgent)) :
    Except String (List (String × SessionAgent)) :=
  match dictGet st.agent_configs agent_id with
  | none => .error ("Agent " ++ agent_id ++ " not found in configurations")
  | some cfg =>
    if cfg.provider.getD "local" = "adk" then
      match adkResolve cfg with
      | .error e => .error e
      | .ok ext => .ok (dictInsert agents agent_id
          { provider := "adk", external_id := some ext, name := cfg.name })
    else
      .ok (dictInsert agents agent_id
        { provider := "local", external_id := none, name := cfg.name })

/-- `AgentOrchestrator._execute_local_agent` (lines 375-404): a fixed
simulated response; its metadata carries the agent id and
`model = agent_config.get("model", "simulated")`. -/
def executeLocalAgent (cfg : AgentConfig) (agent_id query : String) : ExecResult :=
  { response := "This is a simulated response from the " ++ cfg.name ++
      " agent for query: " ++ query,
    metadata := [("agent_id", .str agent_id),
                 ("model", .str (cfg.model.getD "simulated")),
                 ("processing_time", .str "0.5"),
                 ("tool_calls", .null)] }

/-- `AgentOrchestrator.process_query` (lines 202-299). -/
def processQuery (adkResolve : AgentConfig → Except String String)
    (adkExec : String → String → List (String × Json) → Except String ExecResult)
    (st : OrchState) (session_id query : String)
    (context : List (String × Json)) (now : String) :
    Except String QueryOutcome × OrchState :=
  match dictGet st.active_sessions session_id with
  | none => (.error ("Session " ++ session_id ++ " not found"), st)
  | some session =>
    let session1 := { session with
      updated_at := now,
      history := session.history ++
        [{ role := "user", content := query, timestamp := now, metadata := [] }],
      context := context.foldl (fun c kv => dictInsert c kv.1 kv.2) session.context }
    let st1 := { st with active_sessions := dictInsert st.active_sessions session_id session1 }
    match selectPrimaryAgent st with
    | .error e => (.error e, st1)
    | .ok primary_agent_id =>
      let initRes : Except String (List (String × SessionAgent)) :=
        match dictGet session1.agents primary_agent_id with
        | some _ => .ok session1.agents
        | none => initializeAgentInSession adkResolve st primary_agent_id session1.agents
      match initRes with
      | .error e => catchQueryError st1 session_id session1 e now
      | .ok agents2 =>
        let session2 := { session1 with agents := agents2 }
        let st2 := { st1 with active_sessions := dictInsert st1.active_sessions session_id session2 }
        match dictGet agents2 primary_agent_id with
        | none => catchQueryError st2 session_id session2 primary_agent_id now
        | some details =>
          let execRes :=
            if details.provider = "adk" then
              adkExec (details.external_id.getD "") query session2.context
            else
              match dictGet st.agent_configs primary_agent_id with
              | some cfg => .ok (executeLocalAgent cfg primary_agent_id query)
              | none => .error primary_agent_id
          match execRes with
          | .error e => catchQueryError st2 session_id session2 e now
          | .ok r =>
            let session3 := { session2 with history := session2.history ++
              [{ role := "assistant", content := r.response, timestamp := now,
                 metadata := r.metadata }] }
            (.ok (.success r.response session_id primary_agent_id r.metadata now),
             { st2 with active_sessions := dictInsert st2.active_sessions session_id session3 })

/-! ## Serving service, `src/src/serving/service.py`.

`ServingService.process_request` (lines 85-161) and
`process_request_streaming` (lines 163-310), restricted to their cache
and session effects.  The cost-optimisation stage is the parameter
`optimize` (it is the identity when `cost_optimization_enabled` is
false, and falls back to the original request on any error); the
retrieval / agent / compliance / format / evaluation stages
(lines 108-123 resp. 210-276) are the parameter `pipeline`, which may
update the orchestrator sessions and produces the formatted
`RAGResponse`.  `time.time()` deltas are the parameter `elapsed`.
The cache key is `md5(key_data)`; since MD5 is a fixed deterministic
function of `key_data`, cache-key equalities are stated on `key_data`
itself. -/

/-- `RAGRequest` (pydantic model, lines 27-35). -/
structure RAGRequest where
  query : String
  session_id : Option String
  user_id : Option String
  stream : Bool
  context : List (String × Json)
  metadata : List (String × Json)
deriving DecidableEq, Repr

/-- `RAGResponse` (lines 37-44); sources are kept opaque as metadata
dictionaries. -/
structure RAGResponse where
  response_text : String
  sources : List (List (String × Json))
  processing_time : ℚ
  session_id : Option String
  metadata : List (String × Json)
deriving DecidableEq, Repr

/-- `StreamingChunk` (lines 46-53). -/
structure StreamingChunk where
  chunk_text : List Char
  chunk_index : ℕ
  is_final : Bool
  sources : Option (List (List (String × Json)))
  metadata : List (String × Json)
deriving DecidableEq, Repr

/-- The serving configuration fields read by the cache logic. -/
structure ServingCacheConfig where
  response_caching_enabled : Bool
  max_cache_size : ℕ
deriving DecidableEq, Repr

/-- Python `str.strip()` (ASCII whitespace). -/
def pyStrip (l : List Char) : List Char :=
  ((l.dropWhile isPySpace).reverse.dropWhile isPySpace).reverse

/-- `json.dumps` of one scalar value. -/
def jsonDumpsVal (v : Json) : String :=
  match v with
  | .str s => "\"" ++ s ++ "\""
  | .int n => toString n
  | .bool b => if b then "true" else "false"
  | .null => "null"

/-- `json.dumps(relevant_context, sort_keys=True)` for the dict built
from the optional `user_id` and `session_id` entries
(`"session_id" < "user_id"` alphabetically). -/
def dumpsRelevantContext (uid sid : Option Json) : String :=
  let parts :=
    (match sid with
     | some v => ["\"session_id\": " ++ jsonDumpsVal v]
     | none => []) ++
    (match uid with
     | some v => ["\"user_id\": " ++ jsonDumpsVal v]
     | none => [])
  "\x7b" ++ String.intercalate ", " parts ++ "\x7d"

/-- `ServingService._generate_cache_key` (lines 507-524) up to the final
MD5: the `key_data` string `f"{query.lower().strip()}|{json.dumps(relevant_context,
sort_keys=True)}"`, where `relevant_context` keeps only the `user_id`
and `session_id` context entries. -/
def generateCacheKeyData (query : String) (context : List (String × Json)) : String :=
  let normalized := String.mk (pyStrip (query.toList.map pyLowerChar))
  normalized ++ "|" ++
    dumpsRelevantContext (dictGet context "user_id") (dictGet context "session_id")

/-- The cache-trim step of `process_request` (lines 130-135):
`keys_to_remove = list(cache.keys())[:-max_cache_size]` — the oldest
`len - max` keys by insertion order; the Python `[:-0]` quirk means a
zero capacity removes nothing. -/
def cacheTrim (cache : List (String × RAGResponse)) (maxSize : ℕ) :
    List (String × RAGResponse) :=
  if maxSize < cache.length then
    if maxSize = 0 then cache else cache.drop (cache.length - maxSize)
  else cache

/-- `ServingService.process_request` (lines 85-161), cache and session
effects: returns the response together with the updated cache and
orchestrator sessions.  On a cache hit the cached response is returned
with `processing_time` overwritten (the in-place mutation also updates
the stored entry) and nothing else happens — in particular the
orchestrator is never invoked and no history is appended. -/
def processRequest (cfg : ServingCacheConfig)
    (optimize : RAGRequest → RAGRequest)
    (pipeline : RAGRequest → List (String × Session) → RAGResponse × List (String × Session))
    (cache : List (String × RAGResponse)) (sessions : List (String × Session))
    (req : RAGRequest) (elapsed : ℚ) :
    RAGResponse × List (String × RAGResponse) × List (String × Session) :=
  let oreq := optimize req
  if cfg.response_caching_enabled then
    let key := generateCacheKeyData oreq.query oreq.context
    match dictGet cache key with
    | some cached =>
      let annotated := { cached with processing_time := elapsed }
      (annotated, dictInsert cache key annotated, sessions)
    | none =>
      let (resp, sessions2) := pipeline oreq sessions
      (resp, cacheTrim (dictInsert cache key resp) cfg.max_cache_size, sessions2)
  else
    let (resp, sessions2) := pipeline oreq sessions
    (resp, cache, sessions2)

/-- The 20-character slicing of a streamed response text. -/
def chunksOf20 : List Char → List (List Char)
  | [] => []
  | c :: t => (c :: t).take 20 :: chunksOf20 ((c :: t).drop 20)
termination_by l => l.length
decreasing_by
  simp only [List.length_drop, List.length_cons]
  omega

/-- The chunk objects yielded for one streamed text: `is_final` on the
last piece, which also carries the sources. -/
def streamPieces (text : List Char) (sources : List (List (String × Json)))
    (meta : List (String × Json)) : List StreamingChunk :=
  let ps := chunksOf20 text
  ps.mapIdx fun i p =>
    { chunk_text := p, chunk_index := i, is_final := i + 1 = ps.length,
      sources := if i + 1 = ps.length then some sources else none,
      metadata := meta }

/-- `ServingService.process_request_streaming` (lines 163-310), cache and
session effects plus the yielded chunks.  On a cache hit the cached
response is streamed and nothing is written back; on a miss the pipeline
response is streamed and inserted into the cache `without` the trim step
of `process_request` (lines 278-281 have no capacity check). -/
def processRequestStreaming (cfg : ServingCacheConfig)
    (optimize : RAGRequest → RAGRequest)
    (pipeline : RAGRequest → List (String × Session) → RAGResponse × List (String × Session))
    (cache : List (String × RAGResponse)) (sessions : List (String × Session))
    (req : RAGRequest) :
    List StreamingChunk × List (String × RAGResponse) × List (String × Session) :=
  let oreq := optimize req
  let hit := if cfg.response_caching_enabled then
      dictGet cache (generateCacheKeyData oreq.query oreq.context)
    else none
  match hit with
  | some cached =>
    (streamPieces cached.response_text.toList cached.sources [("cached", .bool true)],
     cache, sessions)
  | none =>
    let (resp, sessions2) := pipeline oreq sessions
    let outChunks := streamPieces resp.response_text.toList resp.sources
      [("streaming", .bool true)]
    let cache2 := if cfg.response_caching_enabled then
        dictInsert cache (generateCacheKeyData oreq.query oreq.context) resp
      else cache
    (outChunks, cache2, sessions2)

/-! ## General lemmas about the embedded operations -/

/-- Looking up the key just written returns the written value. -/
theorem dictGet_dictInsert {α : Type} (d : List (String × α)) (k : String) (v : α) :
    dictGet (dictInsert d k v) k = some v := by
  induction d with
  | nil => simp [dictGet, dictInsert]
  | cons p t ih =>
    obtain ⟨k2, v2⟩ := p
    unfold dictInsert
    by_cases hk : k2 = k
    · simp [hk, dictGet]
    · simp only [hk, if_false]
      unfold dictGet
      simp [hk, ih]

/-- Writing a key that is absent appends it, preserving insertion order. -/
theorem dictInsert_fresh {α : Type} {d : List (String × α)} {k : String} (v : α)
    (h : dictGet d k = none) : dictInsert d k v = d ++ [(k, v)] := by
  induction d with
  | nil => rfl
  | cons p t ih =>
    obtain ⟨k2, v2⟩ := p
    unfold dictGet at h
    unfold dictInsert
    by_cases hk : k2 = k
    · rw [if_pos hk] at h
      exact absurd h (by simp)
    · rw [if_neg hk] at h
      rw [if_neg hk, ih h]
      simp

theorem natCeilDiv_step {b x : ℕ} (hb : 0 < b) (hx : b < x) :
    natCeilDiv (x - b) b + 1 = natCeilDiv x b := by
  unfold natCeilDiv
  have h1 : x - b + b - 1 = x - 1 := by omega
  rw [h1, ← Nat.add_div_right (x - 1) hb]
  congr 1
  omega

theorem natCeilDiv_eq_one {b x : ℕ} (h1 : 0 < x) (h2 : x ≤ b) : natCeilDiv x b = 1 := by
  unfold natCeilDiv
  apply Nat.div_eq_of_lt_le <;> omega

theorem pySlice_drop {content : List Char} {start e O : ℕ} :
    (pySlice content start e).drop O = pySlice content (start + O) e := by
  unfold pySlice
  rw [List.drop_take, List.drop_drop]
  congr 1
  omega

theorem pySlice_append_drop {content : List Char} {a b : ℕ} (hab : a ≤ b) :
    pySlice content a b ++ content.drop b = content.drop a := by
  unfold pySlice
  have hb : content.drop b = (content.drop a).drop (b - a) := by
    rw [List.drop_drop]; congr 1; omega
  rw [hb, List.take_append_drop]

theorem pySlice_to_length {content : List Char} {a : ℕ} :
    pySlice content a content.length = content.drop a := by
  unfold pySlice
  exact List.take_of_length_le (by simp)

/-! ## Lemmas on the src/src fixed-size chunking loop -/

/-- Past the end of the content the loop emits no chunk. -/
theorem fixedChunkLoop_nil {content : List Char} {S O fuel start : ℕ}
    {l : List (List Char)}
    (h : fixedChunkLoop content S O fuel start = some l)
    (hs : content.length ≤ start) : l = [] := by
  cases fuel with
  | zero => simp [fixedChunkLoop] at h
  | succ n =>
    simp only [fixedChunkLoop, Nat.not_lt.mpr hs, if_false] at h
    exact (Option.some_inj.mp h).symm

/-- With `overlap < size` the loop terminates: any fuel above the
remaining length yields a value. -/
theorem fixedChunkLoop_some (content : List Char) {S O : ℕ} (hOS : O < S) :
    ∀ fuel start, content.length - start < fuel →
      ∃ l, fixedChunkLoop content S O fuel start = some l := by
  intro fuel
  induction fuel with
  | zero => intro start h; omega
  | succ n ih =>
    intro start h
    by_cases hs : start < content.length
    · simp only [fixedChunkLoop, hs, if_true]
      set e := min (start + S) content.length with he
      by_cases hel : e < content.length
      · have hes : e = start + S := by omega
        obtain ⟨l, hl⟩ := ih (e - O) (by omega)
        refine ⟨pySlice content start e :: l, ?_⟩
        simp only [hel, if_true, hl]
      · have hee : e = content.length := by omega
        obtain ⟨l, hl⟩ := ih e (by omega)
        refine ⟨pySlice content start e :: l, ?_⟩
        simp only [hel, if_false, hl]
    · exact ⟨[], by simp [fixedChunkLoop, hs]⟩

/-- Chunk count of the src/src loop: from position `start` with more than
`O` characters left, exactly `⌈(L - start - O) / (S - O)⌉` chunks are
produced. -/
theorem fixedChunkLoop_length {content : List Char} {S O : ℕ} (hOS : O < S) :
    ∀ fuel start l, fixedChunkLoop content S O fuel start = some l →
      O < content.length - start →
      l.length = natCeilDiv (content.length - start - O) (S - O) := by
  intro fuel
  induction fuel with
  | zero => intro start l h _; simp [fixedChunkLoop] at h
  | succ n ih =>
    intro start l h hR
    have hs : start < content.length := by omega
    simp only [fixedChunkLoop, hs, if_true] at h
    set e := min (start + S) content.length with he
    by_cases hel : e < content.length
    · have hes : e = start + S := by omega
      simp only [hel, if_true] at h
      cases hrec : fixedChunkLoop content S O n (e - O) with
      | none => rw [hrec] at h; simp at h
      | some rest =>
        rw [hrec] at h
        simp only [Option.some_inj] at h
        subst h
        have hR2 : O < content.length - (e - O) := by omega
        have := ih (e - O) rest hrec hR2
        simp only [List.length_cons, this]
        have harg : content.length - (e - O) - O = content.length - start - O - (S - O) := by
          omega
        rw [harg, natCeilDiv_step (by omega) (by omega)]
    · have hee : e = content.length := by omega
      simp only [hel, if_false] at h
      cases hrec : fixedChunkLoop content S O n e with
      | none => rw [hrec] at h; simp at h
      | some rest =>
        rw [hrec] at h
        simp only [Option.some_inj] at h
        subst h
        have hrest : rest = [] := fixedChunkLoop_nil hrec (by omega)
        subst hrest
        simp only [List.length_cons, List.length_nil]
        rw [natCeilDiv_eq_one (by omega) (by omega)]

/-- Dropping the first `O` characters of every chunk from position
`start` and concatenating yields the content from `start + O` on. -/
theorem fixedChunkLoop_tail {content : List Char} {S O : ℕ} (hOS : O < S) :
    ∀ fuel start l, fixedChunkLoop content S O fuel start = some l →
      (l.map (List.drop O)).flatten = content.drop (start + O) := by
  intro fuel
  induction fuel with
  | zero => intro start l h; simp [fixedChunkLoop] at h
  | succ n ih =>
    intro start l h
    by_cases hs : start < content.length
    · simp only [fixedChunkLoop, hs, if_true] at h
      set e := min (start + S) content.length with he
      by_cases hel : e < content.length
      · have hes : e = start + S := by omega
        simp only [hel, if_true] at h
        cases hrec : fixedChunkLoop content S O n (e - O) with
        | none => rw [hrec] at h; simp at h
        | some rest =>
          rw [hrec] at h
          simp only [Option.some_inj] at h
          subst h
          have htail := ih (e - O) rest hrec
          have heO : e - O + O = e := by omega
          rw [heO] at htail
          simp only [List.map_cons, List.flatten_cons, htail, pySlice_drop]
          exact pySlice_append_drop (by omega)
      · have hee : e = content.length := by omega
        simp only [hel, if_false] at h
        cases hrec : fixedChunkLoop content S O n e with
        | none => rw [hrec] at h; simp at h
        | some rest =>
          rw [hrec] at h
          simp only [Option.some_inj] at h
          subst h
          have hrest : rest = [] := fixedChunkLoop_nil hrec (by omega)
          subst hrest
          simp only [List.map_cons, List.map_nil, List.flatten_cons, List.flatten_nil,
            List.append_nil, pySlice_drop]
          rw [hee, pySlice_to_length]
    · have : l = [] := fixedChunkLoop_nil h (by omega)
      subst this
      simp [List.drop_eq_nil_of_le (show content.length ≤ start + O by omega)]

/-- Overlap-stripped reconstruction of the src/src chunks from `start`
recovers the content from `start` on. -/
theorem fixedChunkLoop_reconstruct {content : List Char} {S O : ℕ} (hOS : O < S) :
    ∀ fuel start l, fixedChunkLoop content S O fuel start = some l →
      reconstruct O l = content.drop start := by
  intro fuel start l h
  by_cases hs : start < content.length
  · cases fuel with
    | zero => simp [fixedChunkLoop] at h
    | succ n =>
      simp only [fixedChunkLoop, hs, if_true] at h
      set e := min (start + S) content.length with he
      by_cases hel : e < content.length
      · have hes : e = start + S := by omega
        simp only [hel, if_true] at h
        cases hrec : fixedChunkLoop content S O n (e - O) with
        | none => rw [hrec] at h; simp at h
        | some rest =>
          rw [hrec] at h
          simp only [Option.some_inj] at h
          subst h
          have htail := fixedChunkLoop_tail hOS n (e - O) rest hrec
          have heO : e - O + O = e := by omega
          rw [heO] at htail
          unfold reconstruct reassemble
          simp only [List.flatten_cons, htail]
          exact pySlice_append_drop (by omega)
      · have hee : e = content.length := by omega
        simp only [hel, if_false] at h
        cases hrec : fixedChunkLoop content S O n e with
        | none => rw [hrec] at h; simp at h
        | some rest =>
          rw [hrec] at h
          simp only [Option.some_inj] at h
          subst h
          have hrest : rest = [] := fixedChunkLoop_nil hrec (by omega)
          subst hrest
          unfold reconstruct reassemble
          simp only [List.map_nil, List.flatten_cons, List.flatten_nil, List.append_nil]
          rw [hee, pySlice_to_length]
  · have : l = [] := fixedChunkLoop_nil h (by omega)
    subst this
    simp [reconstruct, reassemble,
      List.drop_eq_nil_of_le (by omega : content.length ≤ start)]

/-- A run of the src/src loop started inside the content emits at least
one chunk. -/
theorem fixedChunkLoop_ne_nil {content : List Char} {S O fuel start : ℕ}
    {l : List (List Char)}
    (h : fixedChunkLoop content S O fuel start = some l)
    (hs : start < content.length) : l ≠ [] := by
  cases fuel with
  | zero => simp [fixedChunkLoop] at h
  | succ n =>
    simp only [fixedChunkLoop, hs, if_true] at h
    cases hrec : fixedChunkLoop content S O n
        (if min (start + S) content.length < content.length
         then min (start + S) content.length - O else min (start + S) content.length) with
    | none => rw [hrec] at h; exact absurd h (by simp)
    | some rest =>
      rw [hrec] at h
      rw [← Option.some_inj.mp h]
      simp

/-! ## Lemmas on the mvp fixed-size chunking loop -/

theorem mvpFixedChunkLoop_nil {content : List Char} {S O fuel start : ℕ}
    {l : List (List Char)}
    (h : mvpFixedChunkLoop content S O fuel start = some l)
    (hs : content.length ≤ start) : l = [] := by
  cases fuel with
  | zero => simp [mvpFixedChunkLoop] at h
  | succ n =>
    simp only [mvpFixedChunkLoop, Nat.not_lt.mpr hs, if_false] at h
    exact (Option.some_inj.mp h).symm

theorem mvpFixedChunkLoop_some (content : List Char) {S O : ℕ} (hOS : O < S) :
    ∀ fuel start, content.length - start < fuel →
      ∃ l, mvpFixedChunkLoop content S O fuel start = some l := by
  intro fuel
  induction fuel with
  | zero => intro start h; omega
  | succ n ih =>
    intro start h
    by_cases hs : start < content.length
    · obtain ⟨l, hl⟩ := ih (start + (S - O)) (by omega)
      refine ⟨pySlice content start (start + S) :: l, ?_⟩
      simp only [mvpFixedChunkLoop, hs, if_true, hl]
    · exact ⟨[], by simp [mvpFixedChunkLoop, hs]⟩

/-- Chunk count of the mvp loop: `⌈(L - start) / (S - O)⌉` chunks —
the `- O` of the src/src count is absent because the mvp loop advances
past the end instead of aligning the final window. -/
theorem mvpFixedChunkLoop_length {content : List Char} {S O : ℕ} (hOS : O < S) :
    ∀ fuel start l, mvpFixedChunkLoop content S O fuel start = some l →
      start < content.length →
      l.length = natCeilDiv (content.length - start) (S - O) := by
  intro fuel
  induction fuel with
  | zero => intro start l h _; simp [mvpFixedChunkLoop] at h
  | succ n ih =>
    intro start l h hs
    simp only [mvpFixedChunkLoop, hs, if_true] at h
    cases hrec : mvpFixedChunkLoop content S O n (start + (S - O)) with
    | none => rw [hrec] at h; simp at h
    | some rest =>
      rw [hrec] at h
      simp only [Option.some_inj] at h
      subst h
      by_cases hs2 : start + (S - O) < content.length
      · have := ih (start + (S - O)) rest hrec hs2
        simp only [List.length_cons, this]
        have harg : content.length - (start + (S - O)) =
            content.length - start - (S - O) := by omega
        rw [harg, natCeilDiv_step (by omega) (by omega)]
      · have hrest : rest = [] := mvpFixedChunkLoop_nil hrec (by omega)
        subst hrest
        simp only [List.length_cons, List.length_nil]
        rw [natCeilDiv_eq_one (by omega) (by omega)]

theorem mvpFixedChunkLoop_tail {content : List Char} {S O : ℕ} (hOS : O < S) :
    ∀ fuel start l, mvpFixedChunkLoop content S O fuel start = some l →
      (l.map (List.drop O)).flatten = content.drop (start + O) := by
  intro fuel
  induction fuel with
  | zero => intro start l h; simp [mvpFixedChunkLoop] at h
  | succ n ih =>
    intro start l h
    by_cases hs : start < content.length
    · simp only [mvpFixedChunkLoop, hs, if_true] at h
      cases hrec : mvpFixedChunkLoop content S O n (start + (S - O)) with
      | none => rw [hrec] at h; simp at h
      | some rest =>
        rw [hrec] at h
        simp only [Option.some_inj] at h
        subst h
        have htail := ih (start + (S - O)) rest hrec
        have harg : start + (S - O) + O = start + S := by omega
        rw [harg] at htail
        simp only [List.map_cons, List.flatten_cons, htail, pySlice_drop]
        exact pySlice_append_drop (by omega)
    · have : l = [] := mvpFixedChunkLoop_nil h (by omega)
      subst this
      simp [List.drop_eq_nil_of_le (show content.length ≤ start + O by omega)]

/-- Reconstruction also holds for the mvp loop: its extra trailing chunks
are entirely absorbed by the overlap stripping. -/
theorem mvpFixedChunkLoop_reconstruct {content : List Char} {S O : ℕ} (hOS : O < S) :
    ∀ fuel start l, mvpFixedChunkLoop content S O fuel start = some l →
      reconstruct O l = content.drop start := by
  intro fuel start l h
  by_cases hs : start < content.length
  · cases fuel with
    | zero => simp [mvpFixedChunkLoop] at h
    | succ n =>
      simp only [mvpFixedChunkLoop, hs, if_true] at h
      cases hrec : mvpFixedChunkLoop content S O n (start + (S - O)) with
      | none => rw [hrec] at h; simp at h
      | some rest =>
        rw [hrec] at h
        simp only [Option.some_inj] at h
        subst h
        have htail := mvpFixedChunkLoop_tail hOS n (start + (S - O)) rest hrec
        have harg : start + (S - O) + O = start + S := by omega
        rw [harg] at htail
        unfold reconstruct reassemble
        simp only [List.flatten_cons, htail]
        exact pySlice_append_drop (by omega)
  · have : l = [] := mvpFixedChunkLoop_nil h (by omega)
    subst this
    simp [reconstruct, reassemble,
      List.drop_eq_nil_of_le (by omega : content.length ≤ start)]

theorem takeWhile_get {p : Char → Bool} :
    ∀ (l : List Char) (j : ℕ), j < (l.takeWhile p).length →
      ∃ c, l[j]? = some c ∧ p c = true := by
  intro l
  induction l with
  | nil => intro j h; simp [List.takeWhile] at h
  | cons a t ih =>
    intro j h
    by_cases hp : p a
    · cases j with
      | zero => exact ⟨a, by simp, hp⟩
      | succ m =>
        simp only [List.takeWhile_cons, hp, if_true, List.length_cons,
          Nat.succ_lt_succ_iff] at h
        simpa using ih m h
    · simp [List.takeWhile_cons, hp] at h

theorem runLen_get {p : Char → Bool} {s : List Char} {i j : ℕ}
    (h : j < runLen p s i) : ∃ c, s[i + j]? = some c ∧ p c = true := by
  obtain ⟨c, hc, hpc⟩ := takeWhile_get (s.drop i) j h
  exact ⟨c, by rw [← List.getElem?_drop]; exact hc, hpc⟩

theorem runLen_zero {p : Char → Bool} {s : List Char} {i : ℕ}
    (h : ∀ c ∈ s, p c = false) : runLen p s i = 0 := by
  by_contra hne
  obtain ⟨c, hc, hpc⟩ := runLen_get (Nat.pos_of_ne_zero hne)
  have := h c (List.get?_mem (by simpa [List.get?_eq_getElem?] using hc))
  rw [this] at hpc
  exact Bool.false_ne_true hpc

theorem sectionBodyAt_none {s : List Char} (hs : '#' ∉ s) (q : ℕ) :
    sectionBodyAt s q = none := by
  unfold sectionBodyAt
  have h0 : runLen (· = '#') s q = 0 := by
    apply runLen_zero
    intro c hc
    by_cases hch : c = '#'
    · exact absurd (hch ▸ hc) hs
    · simpa using hch
  simp [h0]

theorem sectionMatchAt_none {s : List Char} (hs : '#' ∉ s) (p : ℕ) :
    sectionMatchAt s p = none := by
  unfold sectionMatchAt
  by_cases hp : p = 0
  · simp [hp, sectionBodyAt_none hs]
  · simp [hp, sectionBodyAt_none hs]

theorem findSecMatch_none {s : List Char} (hs : '#' ∉ s) :
    ∀ fuel p, findSecMatch s fuel p = none := by
  intro fuel
  induction fuel with
  | zero => intro p; rfl
  | succ n ih =>
    intro p
    unfold findSecMatch
    by_cases hp : s.length < p
    · simp [hp]
    · simp [hp, sectionMatchAt_none hs, ih]

theorem reSplitSections_noHash {s : List Char} (hs : '#' ∉ s) :
    reSplitSections s = [s] := by
  unfold reSplitSections scanSecSplit
  rw [findSecMatch_none hs]
  simp [pySlice, List.take_of_length_le]

theorem paraMatchAt_ws {s : List Char} {p e : ℕ} (h : paraMatchAt s p = some e) :
    p < e ∧ ∀ k, p ≤ k → k < e → ∃ c, s[k]? = some c ∧ isPySpace c = true := by
  unfold paraMatchAt at h
  by_cases hnl : s[p]? = some '\n'
  · simp only [hnl, if_pos rfl] at h
    obtain ⟨a, ha, hfa⟩ := List.exists_of_findSome?_eq_some h
    by_cases hq : s[p + 1 + (runLen isPySpace s (p + 1) - a)]? = some '\n'
    · simp only [hq, if_true] at hfa
      set m := runLen isPySpace s (p + 1) with hm
      set t := m - a with ht
      have he : e = p + 1 + t + 1 := by
        have h2 := Option.some_inj.mp hfa
        omega
      have htm : t ≤ m := by omega
      refine ⟨by omega, ?_⟩
      intro k hk1 hk2
      rcases Nat.lt_or_ge k (p + 1) with hk | hk
      · have hkp : k = p := by omega
        exact ⟨'\n', hkp ▸ hnl, by decide⟩
      · rcases Nat.lt_or_ge k (p + 1 + t) with hk3 | hk3
        · have hj : k - (p + 1) < m := by omega
          obtain ⟨c, hc, hpc⟩ := runLen_get hj
          have : p + 1 + (k - (p + 1)) = k := by omega
          rw [this] at hc
          exact ⟨c, hc, hpc⟩
        · have hkt : k = p + 1 + t := by omega
          exact ⟨'\n', hkt ▸ hq, by decide⟩
    · simp [hq] at hfa
  · simp [hnl] at h

theorem findParaMatch_spec {s : List Char} :
    ∀ fuel p q e, findParaMatch s fuel p = some (q, e) →
      p ≤ q ∧ paraMatchAt s q = some e := by
  intro fuel
  induction fuel with
  | zero => intro p q e h; simp [findParaMatch] at h
  | succ n ih =>
    intro p q e h
    unfold findParaMatch at h
    by_cases hp : s.length < p
    · simp [hp] at h
    · simp only [hp, if_false] at h
      cases hm : paraMatchAt s p with
      | some e2 =>
        rw [hm] at h
        simp only [Option.some_inj, Prod.mk.injEq] at h
        obtain ⟨h1, h2⟩ := h
        subst h1; subst h2
        exact ⟨le_refl p, hm⟩
      | none =>
        rw [hm] at h
        obtain ⟨h1, h2⟩ := ih (p + 1) q e h
        exact ⟨by omega, h2⟩

theorem getElem?_pySlice {s : List Char} {a b k : ℕ} (h1 : a ≤ k) (h2 : k < b) :
    (pySlice s a b)[k - a]? = s[k]? := by
  unfold pySlice
  rw [List.getElem?_take_of_lt (by omega), List.getElem?_drop]
  congr 1
  omega

theorem pySlice_mem_nonws {s : List Char} {a b k : ℕ} {c : Char}
    (h1 : a ≤ k) (h2 : k < b) (hg : s[k]? = some c) (hc : isPySpace c = false) :
    ∃ d ∈ pySlice s a b, isPySpace d = false := by
  refine ⟨c, ?_, hc⟩
  have := getElem?_pySlice (s := s) h1 h2
  rw [hg] at this
  exact List.get?_mem (by simpa [List.get?_eq_getElem?] using this)

theorem getElem?_lt_length {s : List Char} {k : ℕ} {c : Char}
    (h : s[k]? = some c) : k < s.length := by
  by_contra hk
  rw [List.getElem?_eq_none (by omega)] at h
  exact Option.noConfusion h

theorem scanParaSplit_nonws {s : List Char} :
    ∀ fuel cur, s.length < cur + fuel →
      ∀ k c, cur ≤ k → s[k]? = some c → isPySpace c = false →
      ∃ piece ∈ scanParaSplit s fuel cur, ∃ d ∈ piece, isPySpace d = false := by
  intro fuel
  induction fuel with
  | zero =>
    intro cur hf k c hk hg _
    have := getElem?_lt_length hg
    omega
  | succ n ih =>
    intro cur hf k c hk hg hc
    have hklen := getElem?_lt_length hg
    unfold scanParaSplit
    cases hfind : findParaMatch s (s.length + 1) cur with
    | none =>
      exact ⟨pySlice s cur s.length, List.mem_singleton_self _,
        pySlice_mem_nonws hk hklen hg hc⟩
    | some pe =>
      obtain ⟨p, e⟩ := pe
      obtain ⟨hcp, hmatch⟩ := findParaMatch_spec (s := s) _ cur p e hfind
      obtain ⟨hpe, hws⟩ := paraMatchAt_ws hmatch
      rcases Nat.lt_or_ge k p with hkp | hkp
      · exact ⟨pySlice s cur p, List.mem_cons_self _ _,
          pySlice_mem_nonws hk hkp hg hc⟩
      · rcases Nat.lt_or_ge k e with hke | hke
        · obtain ⟨c2, hc2, hws2⟩ := hws k hkp hke
          rw [hg] at hc2
          rw [Option.some_inj.mp hc2] at hc
          rw [hc] at hws2
          exact absurd hws2 (by simp)
        · obtain ⟨piece, hmem, hd⟩ := ih e (by omega) k c hke hg hc
          exact ⟨piece, List.mem_cons_of_mem _ hmem, hd⟩

theorem paraStep_nonempty {size : ℕ} {st : List (List Char) × List Char}
    {p : List Char} (hp : stripEmpty p = false) :
    (paraStep size st p).2 ≠ [] := by
  obtain ⟨chunks, cur⟩ := st
  have hpne : p ≠ [] := by
    intro h
    subst h
    simp [stripEmpty] at hp
  unfold paraStep
  simp only [hp]
  by_cases h1 : size < cur.length + p.length <;> by_cases h2 : cur = [] <;>
    simp [h1, h2, hpne]

theorem paraStep_preserve {size : ℕ} {st : List (List Char) × List Char}
    {p : List Char} (h : st.1 ≠ [] ∨ st.2 ≠ []) :
    (paraStep size st p).1 ≠ [] ∨ (paraStep size st p).2 ≠ [] := by
  by_cases hp : stripEmpty p
  · obtain ⟨chunks, cur⟩ := st
    unfold paraStep
    simp only [hp, if_true]
    exact h
  · exact Or.inr (paraStep_nonempty (by simpa using hp))

theorem foldl_paraStep_preserve {size : ℕ} :
    ∀ (ps : List (List Char)) (st : List (List Char) × List Char),
      (st.1 ≠ [] ∨ st.2 ≠ []) →
      ((ps.foldl (paraStep size) st).1 ≠ [] ∨ (ps.foldl (paraStep size) st).2 ≠ []) := by
  intro ps
  induction ps with
  | nil => intro st h; exact h
  | cons p rest ih =>
    intro st h
    exact ih _ (paraStep_preserve h)

theorem packParagraphs_ne_nil {size : ℕ} {ps : List (List Char)}
    (h : ∃ p ∈ ps, stripEmpty p = false) : packParagraphs size ps ≠ [] := by
  obtain ⟨p, hmem, hp⟩ := h
  obtain ⟨l1, l2, hps⟩ := List.append_of_mem hmem
  subst hps
  unfold packParagraphs
  rw [List.foldl_append, List.foldl_cons]
  have hP := @foldl_paraStep_preserve size l2
    (paraStep size (l1.foldl (paraStep size) ([], [])) p)
    (Or.inr (paraStep_nonempty hp))
  set st := l2.foldl (paraStep size) (paraStep size (l1.foldl (paraStep size) ([], [])) p)
  by_cases h2 : st.2 = []
  · have h1 : st.1 ≠ [] := by tauto
    simp only [h2, ne_eq, not_true_eq_false, if_false]
    exact h1
  · simp only [h2, ne_eq, not_false_eq_true, if_true]
    simp

theorem stripEmpty_false_of_mem {l : List Char} {c : Char}
    (hc : c ∈ l) (hws : isPySpace c = false) : stripEmpty l = false := by
  unfold stripEmpty
  exact List.all_eq_false.mpr ⟨c, hc, by simp [hws]⟩

theorem recursiveChunking_ne_nil {content : List Char} {size : ℕ}
    (hhash : '#' ∉ content) (hnws : ∃ c ∈ content, isPySpace c = false) :
    recursiveChunking content size ≠ [] := by
  unfold recursiveChunking
  rw [reSplitSections_noHash hhash]
  simp only [List.foldl_cons, List.foldl_nil]
  obtain ⟨c, hcmem, hcws⟩ := hnws
  have hstrip : stripEmpty content = false := stripEmpty_false_of_mem hcmem hcws
  simp only [hstrip, Bool.false_eq_true, if_false]
  by_cases hlen : content.length ≤ size
  · simp [hlen]
  · simp only [hlen, if_false, List.nil_append]
    apply packParagraphs_ne_nil
    obtain ⟨k, hk⟩ := List.getElem?_of_mem hcmem
    obtain ⟨piece, hpmem, d, hdmem, hdws⟩ :=
      scanParaSplit_nonws (s := content) (content.length + 2) 0 (by omega) k c
        (Nat.zero_le k) hk hcws
    exact ⟨piece, hpmem, stripEmpty_false_of_mem hdmem hdws⟩



theorem mem_insertDesc {x r : SearchResult} {l : List SearchResult} :
    r ∈ insertDesc x l ↔ r = x ∨ r ∈ l := by
  induction l with
  | nil => simp [insertDesc]
  | cons y ys ih =>
    unfold insertDesc
    by_cases h : y.score < x.score
    · simp [h]
    · simp only [h, if_false, List.mem_cons, ih]
      tauto

theorem insertDesc_sorted {x : SearchResult} {l : List SearchResult}
    (h : l.Pairwise (fun a b => b.score ≤ a.score)) :
    (insertDesc x l).Pairwise (fun a b => b.score ≤ a.score) := by
  induction l with
  | nil => simp [insertDesc]
  | cons y ys ih =>
    rw [List.pairwise_cons] at h
    obtain ⟨hy, hys⟩ := h
    unfold insertDesc
    by_cases hxy : y.score < x.score
    · simp only [hxy, if_true]
      rw [List.pairwise_cons]
      constructor
      · intro a ha
        rcases List.mem_cons.mp ha with h1 | h1
        · subst h1; exact le_of_lt hxy
        · exact le_trans (hy a h1) (le_of_lt hxy)
      · rw [List.pairwise_cons]
        exact ⟨hy, hys⟩
    · simp only [hxy, if_false]
      rw [List.pairwise_cons]
      constructor
      · intro a ha
        rcases mem_insertDesc.mp ha with h1 | h1
        · subst h1; exact le_of_not_lt hxy
        · exact hy a h1
      · exact ih hys

theorem stableSortDesc_sorted_aux :
    ∀ (l : List SearchResult) (acc : List SearchResult),
      acc.Pairwise (fun a b => b.score ≤ a.score) →
      (l.foldl (fun acc x => insertDesc x acc) acc).Pairwise (fun a b => b.score ≤ a.score) := by
  intro l
  induction l with
  | nil => intro acc h; exact h
  | cons x xs ih => intro acc h; exact ih _ (insertDesc_sorted h)

theorem stableSortDesc_sorted (l : List SearchResult) :
    (stableSortDesc l).Pairwise (fun a b => b.score ≤ a.score) :=
  stableSortDesc_sorted_aux l [] List.Pairwise.nil

theorem insertDesc_filter {x : SearchResult} {q : ℚ} :
    ∀ {l : List SearchResult}, l.Pairwise (fun a b => b.score ≤ a.score) →
      (insertDesc x l).filter (fun r => decide (r.score = q)) =
        l.filter (fun r => decide (r.score = q)) ++
          (if x.score = q then [x] else []) := by
  intro l
  induction l with
  | nil =>
    intro _
    by_cases hx : x.score = q <;> simp [insertDesc, hx]
  | cons y ys ih =>
    intro h
    rw [List.pairwise_cons] at h
    obtain ⟨hy, hys⟩ := h
    unfold insertDesc
    by_cases hxy : y.score < x.score
    · simp only [hxy, if_true]
      by_cases hx : x.score = q
      · have hnil : (y :: ys).filter (fun r => decide (r.score = q)) = [] := by
          rw [List.filter_eq_nil_iff]
          intro a ha
          rcases List.mem_cons.mp ha with h1 | h1
          · subst h1
            simp only [decide_eq_true_eq]
            exact ne_of_lt (hx ▸ hxy)
          · have hay := hy a h1
            simp only [decide_eq_true_eq]
            exact ne_of_lt (lt_of_le_of_lt hay (hx ▸ hxy))
        rw [List.filter_cons_of_pos (by simpa using hx), hnil]
        simp [hx]
      · rw [List.filter_cons_of_neg (by simpa using hx)]
        simp [hx]
    · simp only [hxy, if_false]
      by_cases hyq : y.score = q
      · rw [List.filter_cons_of_pos (by simpa using hyq),
          List.filter_cons_of_pos (by simpa using hyq), ih hys]
        simp
      · rw [List.filter_cons_of_neg (by simpa using hyq),
          List.filter_cons_of_neg (by simpa using hyq), ih hys]

theorem foldl_insertDesc_filter {q : ℚ} :
    ∀ (l acc : List SearchResult), acc.Pairwise (fun a b => b.score ≤ a.score) →
      (l.foldl (fun acc x => insertDesc x acc) acc).filter (fun r => decide (r.score = q)) =
        acc.filter (fun r => decide (r.score = q)) ++
          l.filter (fun r => decide (r.score = q)) := by
  intro l
  induction l with
  | nil => intro acc _; simp
  | cons x xs ih =>
    intro acc hacc
    rw [List.foldl_cons, ih _ (insertDesc_sorted hacc), insertDesc_filter hacc]
    by_cases hx : x.score = q
    · rw [List.filter_cons_of_pos (by simpa using hx)]
      simp [hx]
    · rw [List.filter_cons_of_neg (by simpa using hx)]
      simp [hx]

theorem stableSortDesc_filter (l : List SearchResult) (q : ℚ) :
    (stableSortDesc l).filter (fun r => decide (r.score = q)) =
      l.filter (fun r => decide (r.score = q)) := by
  unfold stableSortDesc
  rw [foldl_insertDesc_filter l [] List.Pairwise.nil]
  simp

theorem mem_stableSortDesc_aux :
    ∀ (l acc : List SearchResult) (r : SearchResult),
      r ∈ l.foldl (fun acc x => insertDesc x acc) acc → r ∈ l ∨ r ∈ acc := by
  intro l
  induction l with
  | nil => intro acc r h; exact Or.inr h
  | cons x xs ih =>
    intro acc r h
    rw [List.foldl_cons] at h
    rcases ih _ r h with h1 | h1
    · exact Or.inl (List.mem_cons_of_mem _ h1)
    · rcases mem_insertDesc.mp h1 with h2 | h2
      · exact Or.inl (h2 ▸ List.mem_cons_self _ _)
      · exact Or.inr h2

theorem mem_stableSortDesc {l : List SearchResult} {r : SearchResult}
    (h : r ∈ stableSortDesc l) : r ∈ l := by
  rcases mem_stableSortDesc_aux l [] r h with h1 | h1
  · exact h1
  · simp at h1

theorem mem_pyTake {α : Type} {n : ℤ} {l : List α} {a : α} (h : a ∈ pyTake n l) :
    a ∈ l := by
  unfold pyTake at h
  by_cases hn : 0 ≤ n
  · rw [if_pos hn] at h; exact List.take_subset _ _ h
  · rw [if_neg hn] at h; exact List.take_subset _ _ h

theorem mem_rerank {l : List SearchResult} {r : SearchResult}
    (h : r ∈ rerank l) : ∃ r0 ∈ l, r.document = r0.document ∧ r.score = r0.score := by
  unfold rerank at h
  rw [List.mapIdx_eq_enum_map] at h
  obtain ⟨p, hp, hr⟩ := List.mem_map.mp h
  rw [List.enum_eq_zip_range] at hp
  refine ⟨p.2, (List.of_mem_zip hp).2, ?_, ?_⟩ <;> rw [← hr] <;> rfl

theorem matchesFilter_dictGet {filter : List (String × Json)} {doc : VectorDBDocument}
    (h : matchesFilter filter doc = true) :
    ∀ kv ∈ filter, dictGet doc.metadata kv.1 = some kv.2 := by
  intro kv hkv
  unfold matchesFilter at h
  have := List.all_eq_true.mp h kv hkv
  cases hd : dictGet doc.metadata kv.1 with
  | none => rw [hd] at this; simp at this
  | some v =>
    rw [hd] at this
    simp only [decide_eq_true_eq] at this
    rw [this]

theorem mockScanEmb_filtered {rand : ℕ → ℚ} {filter : List (String × Json)}
    (hf : filter ≠ []) :
    ∀ (docs : List (String × VectorDBDocument)) (i c : ℕ) (r : SearchResult),
      r ∈ mockScanEmb rand filter docs i c → matchesFilter filter r.document = true := by
  intro docs
  induction docs with
  | nil => intro i c r h; simp [mockScanEmb] at h
  | cons d rest ih =>
    intro i c r h
    obtain ⟨k, doc⟩ := d
    unfold mockScanEmb at h
    by_cases he : pyTruthyList doc.embedding
    · simp only [he, if_true] at h
      by_cases hskip : filter ≠ [] ∧ ¬ matchesFilter filter doc
      · rw [if_pos hskip] at h
        exact ih _ _ r h
      · rw [if_neg hskip] at h
        rcases List.mem_cons.mp h with h1 | h1
        · subst h1
          push_neg at hskip
          simpa using hskip hf
        · exact ih _ _ r h1
    · simp only [he, if_false] at h
      exact ih _ _ r h

theorem mockScanText_filtered {rand : ℕ → ℚ} {ql : List Char}
    {filter : List (String × Json)} (hf : filter ≠ []) :
    ∀ (docs : List (String × VectorDBDocument)) (i c : ℕ) (r : SearchResult),
      r ∈ mockScanText rand ql filter docs i c → matchesFilter filter r.document = true := by
  intro docs
  induction docs with
  | nil => intro i c r h; simp [mockScanText] at h
  | cons d rest ih =>
    intro i c r h
    obtain ⟨k, doc⟩ := d
    unfold mockScanText at h
    by_cases he : isSubstring ql (doc.text.toList.map pyLowerChar)
    · simp only [he, if_true] at h
      by_cases hskip : filter ≠ [] ∧ ¬ matchesFilter filter doc
      · rw [if_pos hskip] at h
        exact ih _ _ r h
      · rw [if_neg hskip] at h
        rcases List.mem_cons.mp h with h1 | h1
        · subst h1
          push_neg at hskip
          simpa using hskip hf
        · exact ih _ _ r h1
    · simp only [he, if_false] at h
      exact ih _ _ r h

theorem rerank_map_score (l : List SearchResult) :
    (rerank l).map (fun r => r.score) = l.map (fun r => r.score) := by
  unfold rerank
  rw [List.mapIdx_eq_enum_map, List.map_map]
  have : ((fun r : SearchResult => r.score) ∘
      Function.uncurry fun i r => { r with rank := i + 1 }) =
      (fun p : ℕ × SearchResult => p.2.score) := rfl
  rw [this]
  have h2 : (fun p : ℕ × SearchResult => p.2.score) =
      (fun r : SearchResult => r.score) ∘ Prod.snd := rfl
  rw [h2, ← List.map_map, List.enum_map_snd]

theorem rerank_map_rank (l : List SearchResult) :
    (rerank l).map (fun r => r.rank) = List.range' 1 l.length := by
  unfold rerank
  rw [List.mapIdx_eq_enum_map, List.map_map]
  have hco : ((fun r : SearchResult => r.rank) ∘
      Function.uncurry fun (i : ℕ) (r : SearchResult) => { r with rank := i + 1 }) =
      ((fun n : ℕ => n + 1) ∘ Prod.fst) := rfl
  rw [hco, ← List.map_map, List.enum_map_fst, List.range'_eq_map_range]
  apply List.map_congr_left
  intro a _
  omega

theorem rerank_length (l : List SearchResult) : (rerank l).length = l.length := by
  unfold rerank
  exact List.length_mapIdx

theorem searchShape (l : List SearchResult) (k : ℤ) :
    ((rerank (pyTake k (stableSortDesc l))).map (fun r => r.score)).Pairwise
        (fun a b => b ≤ a) ∧
    ((rerank (pyTake k (stableSortDesc l))).map (fun r => r.rank) =
      List.range' 1 (rerank (pyTake k (stableSortDesc l))).length) ∧
    (0 ≤ k → (rerank (pyTake k (stableSortDesc l))).length ≤ k.toNat) := by
  refine ⟨?_, ?_, ?_⟩
  · rw [rerank_map_score]
    rw [List.pairwise_map]
    have hsorted := stableSortDesc_sorted l
    have hsub : List.Sublist (pyTake k (stableSortDesc l)) (stableSortDesc l) := by
      unfold pyTake
      by_cases hk : 0 ≤ k
      · rw [if_pos hk]; exact List.take_sublist _ _
      · rw [if_neg hk]; exact List.take_sublist _ _
    exact List.Pairwise.sublist hsub hsorted
  · rw [rerank_map_rank, rerank_length]
  · intro hk
    rw [rerank_length]
    unfold pyTake
    rw [if_pos hk]
    exact List.length_take_le _ _

def cexDocA : VectorDBDocument :=
  { id := "a", text := "The sky is blue.", metadata := [("topic", .str "sky")],
    embedding := some [1] }

def cexDocB : VectorDBDocument :=
  { id := "b", text := "The grass is green.", metadata := [("topic", .str "grass")],
    embedding := some [2] }

def cexReq : SearchRequest :=
  { query := "", query_embedding := some [1], filter := [], top_k := 5 }



theorem isPySpace_pyLowerChar (c : Char) : isPySpace (pyLowerChar c) = isPySpace c := by
  unfold pyLowerChar
  split <;> rfl

theorem dropWhile_map (f : Char → Char) (p : Char → Bool) :
    ∀ l : List Char, (l.map f).dropWhile p = (l.dropWhile (fun c => p (f c))).map f := by
  intro l
  induction l with
  | nil => rfl
  | cons c t ih =>
    simp only [List.map_cons, List.dropWhile_cons]
    by_cases h : p (f c) <;> simp [h, ih]

theorem pyStrip_map_pyLowerChar (l : List Char) :
    pyStrip (l.map pyLowerChar) = (pyStrip l).map pyLowerChar := by
  unfold pyStrip
  have hcomp : (fun c => isPySpace (pyLowerChar c)) = isPySpace := by
    funext c
    exact isPySpace_pyLowerChar c
  rw [dropWhile_map, hcomp, ← List.map_reverse, dropWhile_map, hcomp, List.map_reverse]

def cexCachedResp : RAGResponse :=
  { response_text := "cached answer", sources := [], processing_time := 1,
    session_id := some "s1", metadata := [] }

def cexHitCache : List (String × RAGResponse) :=
  [(generateCacheKeyData "q" [], cexCachedResp)]

def cexSessionA : Session :=
  { user_id := "u", created_at := "t0", updated_at := "t0", status := "active",
    metadata := [], history := [], agents := [], context := [] }

def cexHitReq : RAGRequest :=
  { query := "q", session_id := some "s1", user_id := none, stream := false,
    context := [], metadata := [] }

theorem cacheTrim_length {cache : List (String × RAGResponse)} {maxSize : ℕ}
    (h : 1 ≤ maxSize) : (cacheTrim cache maxSize).length ≤ maxSize := by
  unfold cacheTrim
  by_cases h1 : maxSize < cache.length
  · rw [if_pos h1, if_neg (by omega)]
    simp only [List.length_drop]
    omega
  · rw [if_neg h1]
    omega

theorem cacheTrim_suffix (cache : List (String × RAGResponse)) (maxSize : ℕ) :
    (cacheTrim cache maxSize) <:+ cache := by
  unfold cacheTrim
  by_cases h1 : maxSize < cache.length
  · rw [if_pos h1]
    by_cases h2 : maxSize = 0
    · rw [if_pos h2]
    · rw [if_neg h2]
      exact List.drop_suffix _ _
  · rw [if_neg h1]

theorem cacheTrim_of_le {cache : List (String × RAGResponse)} {maxSize : ℕ}
    (h : cache.length ≤ maxSize) : cacheTrim cache maxSize = cache := by
  unfold cacheTrim
  rw [if_neg (by omega)]

theorem cacheTrim_evict_oldest {cache : List (String × RAGResponse)} {k : String}
    {v : RAGResponse} {maxSize : ℕ} (hlen : cache.length = maxSize)
    (hmax : 1 ≤ maxSize) (hfresh : dictGet cache k = none) :
    cacheTrim (dictInsert cache k v) maxSize = cache.drop 1 ++ [(k, v)] := by
  rw [dictInsert_fresh v hfresh]
  unfold cacheTrim
  have hl : (cache ++ [(k, v)]).length = maxSize + 1 := by simp [hlen]
  rw [if_pos (by omega), if_neg (by omega), hl]
  have : maxSize + 1 - maxSize = 1 := by omega
  rw [this, List.drop_append_of_le_length (by omega)]

def cexStreamResp : RAGResponse :=
  { response_text := "fresh", sources := [], processing_time := 2,
    session_id := none, metadata := [] }

def cexSessionB : Session :=
  { user_id := "u", created_at := "t0", updated_at := "t0", status := "active",
    metadata := [], history := [], agents := [], context := [] }

def cexOrchEmpty : OrchState :=
  { agent_configs := [], default_agent_id := none,
    active_sessions := [("s1", cexSessionB)] }


/-! ## Witness fixtures for the claim theorems -/

/-- Agent configuration used to exercise the orchestrator failure path. -/
def witAgentCfg : AgentConfig :=
  { name := "A", provider := some "adk", external_id := some "x", model := none }

/-- A session in which the adk agent is already initialized. -/
def witSession : Session :=
  { user_id := "u", created_at := "t0", updated_at := "t0", status := "active",
    metadata := [], history := [],
    agents := [("ag", { provider := "adk", external_id := some "x", name := "A" })],
    context := [] }

/-- Orchestrator state with one configured agent and one active session. -/
def witOrch : OrchState :=
  { agent_configs := [("ag", witAgentCfg)], default_agent_id := none,
    active_sessions := [("s9", witSession)] }

/-- Search request with a metadata filter, for the filter-soundness witness. -/
def witFilterReq : SearchRequest :=
  { query := "", query_embedding := some [1],
    filter := [("topic", Json.str "grass")], top_k := 5 }

/-! ## The claims -/

/-- C1 (amended).  `MockVectorDB.search` is not a function of the stored
collection and the query alone — its scores are fresh random draws per
call (see the counterexample) — but for every fixed draw stream the
result is sorted descending by score, at most `top_k` results are
returned when `top_k ≥ 0`, ranks are the 1-based positions in the
truncated result, and the sort is stable: restricted to any one score
value the sorted candidates keep their insertion order. -/
theorem C1_search_ranking_shape (rand : ℕ → ℚ) (db : List (String × VectorDBDocument))
    (req : SearchRequest) :
    ((mockSearch rand db req).map (fun r => r.score)).Pairwise (fun a b => b ≤ a) ∧
    ((mockSearch rand db req).map (fun r => r.rank) =
      List.range' 1 (mockSearch rand db req).length) ∧
    (0 ≤ req.top_k → (mockSearch rand db req).length ≤ req.top_k.toNat) ∧
    (∀ q : ℚ,
      (stableSortDesc (mockScanEmb rand req.filter db 0 0)).filter
          (fun r => decide (r.score = q)) =
        (mockScanEmb rand req.filter db 0 0).filter (fun r => decide (r.score = q))) := by
  unfold mockSearch
  by_cases hq : pyTruthyList req.query_embedding
  · rw [if_pos hq]
    obtain ⟨h1, h2, h3⟩ := searchShape (mockScanEmb rand req.filter db 0 0) req.top_k
    exact ⟨h1, h2, h3, fun q => stableSortDesc_filter _ q⟩
  · rw [if_neg hq]
    obtain ⟨h1, h2, h3⟩ := searchShape
      (mockScanText rand (req.query.toList.map pyLowerChar) req.filter db 0 0) req.top_k
    exact ⟨h1, h2, h3, fun q => stableSortDesc_filter _ q⟩

/-- C1 counterexample.  Two calls of `MockVectorDB.search` on the same
stored documents and the same query return different orders when the
per-call random draws differ, refuting determinism of `search` as a
function of collection and query alone. -/
theorem C1_search_nondeterminism_cex :
    (mockSearch (fun k => if k = 0 then 4/5 else 1/5)
        [("a", cexDocA), ("b", cexDocB)] cexReq).map (fun r => r.document.id) = ["a", "b"] ∧
    (mockSearch (fun k => if k = 0 then 1/5 else 4/5)
        [("a", cexDocA), ("b", cexDocB)] cexReq).map (fun r => r.document.id) = ["b", "a"] := by
  constructor <;>
    norm_num [mockSearch, stableSortDesc, mockScanEmb, insertDesc, pyTruthyList,
      cexDocA, cexDocB, cexReq, pyTake, rerank, List.mapIdx, List.mapIdx.go]

/-- C1 witness: the ranking-shape theorem applied to a concrete search. -/
theorem C1_search_ranking_shape_witness :
    (((mockSearch (fun k => if k = 0 then 4/5 else 1/5)
        [("a", cexDocA), ("b", cexDocB)] cexReq).map (fun r => r.score)).Pairwise
      (fun a b => b ≤ a)) ∧
    (mockSearch (fun k => if k = 0 then 4/5 else 1/5)
        [("a", cexDocA), ("b", cexDocB)] cexReq).length ≤ (5 : ℤ).toNat := by
  have h := C1_search_ranking_shape (fun k => if k = 0 then 4/5 else 1/5)
    [("a", cexDocA), ("b", cexDocB)] cexReq
  exact ⟨h.1, h.2.2.1 (by decide)⟩

/-- C2 (amended).  For text length `L`, window `S`, overlap `O` with
`O < S` and `O < L`: the src/src `_fixed_size_chunking` terminates and
produces exactly `⌈(L - O) / (S - O)⌉` chunks whose overlap-stripped
concatenation reconstructs the text; the mvp `_fixed_size_chunking`
also reconstructs the text but produces `⌈L / (S - O)⌉` chunks, which
exceeds the claimed count whenever `L % (S - O)` lies in `1..O`
(see the counterexample). -/
theorem C2_fixed_chunking_count_reconstruction (content : List Char) (S O : ℕ)
    (hO : O < S) (hL : O < content.length) :
    ∃ chunks mchunks,
      fixedSizeChunking content S O = some chunks ∧
      chunks.length = natCeilDiv (content.length - O) (S - O) ∧
      reconstruct O chunks = content ∧
      mvpFixedSizeChunking content S O = some mchunks ∧
      mchunks.length = natCeilDiv content.length (S - O) ∧
      reconstruct O mchunks = content := by
  obtain ⟨chunks, hc⟩ := fixedChunkLoop_some content hO (content.length + 1) 0 (by omega)
  obtain ⟨mchunks, hm⟩ := mvpFixedChunkLoop_some content hO (content.length + 1) 0 (by omega)
  refine ⟨chunks, mchunks, hc, ?_, ?_, hm, ?_, ?_⟩
  · simpa using fixedChunkLoop_length hO _ 0 chunks hc (by omega)
  · simpa using fixedChunkLoop_reconstruct hO _ 0 chunks hc
  · simpa using mvpFixedChunkLoop_length hO _ 0 mchunks hm (by omega)
  · simpa using mvpFixedChunkLoop_reconstruct hO _ 0 mchunks hm

/-- C2 counterexample.  For a 10-character text with `chunk_size = 4`,
`overlap = 2` the claimed count is `⌈(10-2)/(4-2)⌉ = 4`, but the mvp
implementation produces 5 chunks. -/
theorem C2_mvp_chunk_count_cex :
    (mvpFixedSizeChunking (List.replicate 10 'a') 4 2).map List.length = some 5 ∧
    natCeilDiv (10 - 2) (4 - 2) = 4 := by
  decide

/-- C2 witness: the amended count/reconstruction theorem at a concrete
10-character text with `chunk_size = 4`, `overlap = 2`. -/
theorem C2_fixed_chunking_witness :
    2 < 4 ∧ 2 < ("abcdefghij".toList).length ∧
    (∃ chunks mchunks,
      fixedSizeChunking "abcdefghij".toList 4 2 = some chunks ∧
      chunks.length = natCeilDiv (("abcdefghij".toList).length - 2) (4 - 2) ∧
      reconstruct 2 chunks = "abcdefghij".toList ∧
      mvpFixedSizeChunking "abcdefghij".toList 4 2 = some mchunks ∧
      mchunks.length = natCeilDiv ("abcdefghij".toList).length (4 - 2) ∧
      reconstruct 2 mchunks = "abcdefghij".toList) :=
  ⟨by decide, by decide,
    C2_fixed_chunking_count_reconstruction "abcdefghij".toList 4 2 (by decide) (by decide)⟩

/-- C3 (amended).  On a cache hit `ServingService.process_request`
returns the cached response with `processing_time` overwritten by the
elapsed time (the in-place mutation also updates the stored cache
entry), and returns `without` touching the orchestrator sessions: no
conversational turn is appended to any session history. -/
theorem C3_cache_hit_behavior (cfg : ServingCacheConfig)
    (optimize : RAGRequest → RAGRequest)
    (pipeline : RAGRequest → List (String × Session) → RAGResponse × List (String × Session))
    (cache : List (String × RAGResponse)) (sessions : List (String × Session))
    (req : RAGRequest) (elapsed : ℚ) (cached : RAGResponse)
    (hen : cfg.response_caching_enabled = true)
    (hhit : dictGet cache
      (generateCacheKeyData (optimize req).query (optimize req).context) = some cached) :
    processRequest cfg optimize pipeline cache sessions req elapsed =
      ({ cached with processing_time := elapsed },
       dictInsert cache
         (generateCacheKeyData (optimize req).query (optimize req).context)
         { cached with processing_time := elapsed },
       sessions) := by
  unfold processRequest
  rw [hen]
  simp only [if_true, hhit]

/-- C3 counterexample.  A concrete cache hit: the cached response is
returned with updated processing time, but the session map — whose only
session has an empty history — is returned unchanged, so no turn was
appended, refuting the claim that the turn is still recorded. -/
theorem C3_cache_hit_no_history_cex :
    (processRequest { response_caching_enabled := true, max_cache_size := 100 }
        id (fun _ s => (cexCachedResp, s)) cexHitCache [("s1", cexSessionA)]
        cexHitReq 7).1.response_text = "cached answer" ∧
    (processRequest { response_caching_enabled := true, max_cache_size := 100 }
        id (fun _ s => (cexCachedResp, s)) cexHitCache [("s1", cexSessionA)]
        cexHitReq 7).1.processing_time = 7 ∧
    (processRequest { response_caching_enabled := true, max_cache_size := 100 }
        id (fun _ s => (cexCachedResp, s)) cexHitCache [("s1", cexSessionA)]
        cexHitReq 7).2.2 = [("s1", cexSessionA)] ∧
    cexSessionA.history.length = 0 := by
  refine ⟨rfl, rfl, rfl, rfl⟩

/-- C3 witness: the hit-path theorem applied to the concrete fixture. -/
theorem C3_cache_hit_behavior_witness :
    processRequest { response_caching_enabled := true, max_cache_size := 100 }
        id (fun _ s => (cexCachedResp, s)) cexHitCache [("s1", cexSessionA)]
        cexHitReq 7 =
      ({ cexCachedResp with processing_time := 7 },
       dictInsert cexHitCache (generateCacheKeyData "q" [])
         { cexCachedResp with processing_time := 7 },
       [("s1", cexSessionA)]) :=
  C3_cache_hit_behavior _ id _ cexHitCache [("s1", cexSessionA)] cexHitReq 7
    cexCachedResp rfl rfl

/-- C4 (amended).  `VectorDBClient.index_document` never checks vector
dimensions: any document with a present embedding — of any length,
matching the configured dimension or not — is indexed successfully and
is retrievable afterwards, with the configured dimension untouched.
Only a missing embedding fails (re-raised as `INDEXING_ERROR`). -/
theorem C4_insert_no_dimension_check (st : VectorDBState) (doc : VectorDBDocument)
    (v : List ℚ) (hv : doc.embedding = some v) :
    (indexDocument st doc).1 = .ok doc.id ∧
    dictGet (indexDocument st doc).2.documents doc.id = some doc ∧
    (indexDocument st doc).2.embedding_dimension = st.embedding_dimension := by
  unfold indexDocument
  rw [hv]
  exact ⟨rfl, dictGet_dictInsert _ _ _, rfl⟩

/-- C4 counterexample.  Inserting a 2-dimensional vector into a store
configured with dimension 3 succeeds and stores the document, refuting
the claim that a mismatched insert fails with `DimensionMismatchError`. -/
theorem C4_mismatched_insert_succeeds_cex :
    (indexDocument { embedding_dimension := 3, documents := [] }
      { id := "d", text := "t", metadata := [], embedding := some [1, 2] }).1 = .ok "d" ∧
    (dictGet (indexDocument { embedding_dimension := 3, documents := [] }
      { id := "d", text := "t", metadata := [], embedding := some [1, 2] }).2.documents "d").isSome
      = true ∧
    ([(1 : ℚ), 2].length ≠ 3) := by
  refine ⟨rfl, rfl, by decide⟩

/-- C4 witness: the no-dimension-check theorem at the concrete
mismatched insert. -/
theorem C4_insert_no_dimension_check_witness :
    (indexDocument { embedding_dimension := 3, documents := [] }
      { id := "d", text := "t", metadata := [], embedding := some [1, 2] }).1 = .ok "d" ∧
    dictGet (indexDocument { embedding_dimension := 3, documents := [] }
      { id := "d", text := "t", metadata := [], embedding := some [1, 2] }).2.documents "d" =
      some { id := "d", text := "t", metadata := [], embedding := some [1, 2] } ∧
    (indexDocument { embedding_dimension := 3, documents := [] }
      { id := "d", text := "t", metadata := [], embedding := some [1, 2] }).2.embedding_dimension
      = 3 :=
  C4_insert_no_dimension_check _ _ [1, 2] rfl

/-- C5 (amended).  The non-streaming `process_request` put enforces the
capacity bound whenever `max_cache_size ≥ 1`: the resulting cache is the
trim of the inserted cache, its size never exceeds the capacity, the
surviving entries are a suffix of the inserted order (so the evicted
entries are exactly the oldest), nothing is evicted while under
capacity, and inserting a fresh fingerprint into a full cache evicts
exactly the single oldest entry.  (With `max_cache_size = 0` the Python
`[:-0]` slice evicts nothing, and the streaming put has no trim at all —
see the counterexample.) -/
theorem C5_cache_capacity :
    (∀ (cfg : ServingCacheConfig) (optimize : RAGRequest → RAGRequest)
       (pipeline : RAGRequest → List (String × Session) →
         RAGResponse × List (String × Session))
       (cache : List (String × RAGResponse)) (sessions : List (String × Session))
       (req : RAGRequest) (elapsed : ℚ),
      cfg.response_caching_enabled = true →
      dictGet cache
        (generateCacheKeyData (optimize req).query (optimize req).context) = none →
      (processRequest cfg optimize pipeline cache sessions req elapsed).2.1 =
        cacheTrim (dictInsert cache
          (generateCacheKeyData (optimize req).query (optimize req).context)
          (pipeline (optimize req) sessions).1) cfg.max_cache_size) ∧
    (∀ (cache : List (String × RAGResponse)) (k : String) (v : RAGResponse)
       (maxSize : ℕ), 1 ≤ maxSize →
      (cacheTrim (dictInsert cache k v) maxSize).length ≤ maxSize) ∧
    (∀ (cache : List (String × RAGResponse)) (k : String) (v : RAGResponse)
       (maxSize : ℕ),
      (cacheTrim (dictInsert cache k v) maxSize) <:+ dictInsert cache k v) ∧
    (∀ (cache : List (String × RAGResponse)) (k : String) (v : RAGResponse)
       (maxSize : ℕ), (dictInsert cache k v).length ≤ maxSize →
      cacheTrim (dictInsert cache k v) maxSize = dictInsert cache k v) ∧
    (∀ (cache : List (String × RAGResponse)) (k : String) (v : RAGResponse)
       (maxSize : ℕ), cache.length = maxSize → 1 ≤ maxSize →
      dictGet cache k = none →
      cacheTrim (dictInsert cache k v) maxSize = cache.drop 1 ++ [(k, v)]) := by
  refine ⟨?_, ?_, ?_, ?_, ?_⟩
  · intro cfg optimize pipeline cache sessions req elapsed hen hmiss
    unfold processRequest
    rw [hen]
    simp only [if_true, hmiss]
  · intro cache k v maxSize h
    exact cacheTrim_length h
  · intro cache k v maxSize
    exact cacheTrim_suffix _ _
  · intro cache k v maxSize h
    exact cacheTrim_of_le h
  · intro cache k v maxSize h1 h2 h3
    exact cacheTrim_evict_oldest h1 h2 h3

/-- C5 counterexample.  `process_request_streaming` inserts into the
cache with no trim: with capacity 1 and one existing entry, a streaming
miss leaves 2 cached entries, exceeding the configured capacity. -/
theorem C5_streaming_put_exceeds_cex :
    (processRequestStreaming { response_caching_enabled := true, max_cache_size := 1 }
        id (fun _ s => (cexStreamResp, s)) [("oldkey", cexCachedResp)] []
        cexHitReq).2.1.length = 2 ∧
    (1 : ℕ) < 2 := by
  exact ⟨rfl, by decide⟩

/-- C5 witness: the capacity theorem applied to concrete caches — the
non-streaming put equation on an empty cache, the bound at capacity 1,
and eviction of exactly the oldest entry from a full cache. -/
theorem C5_cache_capacity_witness :
    ((processRequest { response_caching_enabled := true, max_cache_size := 1 }
        id (fun _ s => (cexStreamResp, s)) [] [] cexHitReq 0).2.1 =
      cacheTrim (dictInsert [] (generateCacheKeyData "q" []) cexStreamResp) 1) ∧
    ((cacheTrim (dictInsert [("a", cexStreamResp)] "b" cexStreamResp) 1).length ≤ 1) ∧
    (cacheTrim (dictInsert [("a", cexStreamResp)] "b" cexStreamResp) 1 =
      [("a", cexStreamResp)].drop 1 ++ [("b", cexStreamResp)]) := by
  have h := C5_cache_capacity
  exact ⟨h.1 _ id _ [] [] cexHitReq 0 rfl rfl,
    h.2.1 [("a", cexStreamResp)] "b" cexStreamResp 1 (by decide),
    h.2.2.2.2 [("a", cexStreamResp)] "b" cexStreamResp 1 rfl (by decide) rfl⟩

/-- C6 (amended).  Errors during agent initialization and agent
execution are caught by `process_query`: whether the external
provider call of an already-initialized adk agent fails, or the
adk get-or-create resolution fails while initializing the selected
agent, the error is appended to the session history as a system-role
`"Error: ..."` entry, the session stays in `active_sessions` with its
status untouched, and the structured `error=True` payload is returned
instead of raising.  An error in agent `selection` itself — no agents
configured — is raised `outside` the `try` block and propagates as an
exception (see the counterexample). -/
theorem C6_provider_failure_recovered (adkResolve : AgentConfig → Except String String)
    (adkExec : String → String → List (String × Json) → Except String ExecResult)
    (st : OrchState) (sid query : String) (context : List (String × Json))
    (now : String) (sess : Session) (aid : String) (emsg : String)
    (hsess : dictGet st.active_sessions sid = some sess)
    (hsel : selectPrimaryAgent st = .ok aid) :
    (∀ details : SessionAgent, dictGet sess.agents aid = some details →
      details.provider = "adk" →
      (∀ ext q ctx, adkExec ext q ctx = .error emsg) →
      (processQuery adkResolve adkExec st sid query context now).1 =
        .ok (.failure ("Failed to process query: " ++ emsg) sid) ∧
      ∃ sess2, dictGet (processQuery adkResolve adkExec st sid query context
          now).2.active_sessions sid = some sess2 ∧
        sess2.status = sess.status ∧
        sess2.history = sess.history ++
          [{ role := "user", content := query, timestamp := now, metadata := [] },
           { role := "system", content := "Error: " ++ emsg, timestamp := now,
             metadata := [] }]) ∧
    (∀ cfg : AgentConfig, dictGet sess.agents aid = none →
      dictGet st.agent_configs aid = some cfg →
      cfg.provider.getD "local" = "adk" →
      adkResolve cfg = .error emsg →
      (processQuery adkResolve adkExec st sid query context now).1 =
        .ok (.failure ("Failed to process query: " ++ emsg) sid) ∧
      ∃ sess2, dictGet (processQuery adkResolve adkExec st sid query context
          now).2.active_sessions sid = some sess2 ∧
        sess2.status = sess.status ∧
        sess2.history = sess.history ++
          [{ role := "user", content := query, timestamp := now, metadata := [] },
           { role := "system", content := "Error: " ++ emsg, timestamp := now,
             metadata := [] }]) := by
  constructor
  · intro details hdet hprov hfail
    unfold processQuery
    rw [hsess, hsel]
    dsimp only
    rw [hdet]
    dsimp only
    rw [hdet]
    dsimp only
    rw [hprov]
    rw [if_pos rfl, hfail]
    dsimp only [catchQueryError]
    refine ⟨rfl, _, dictGet_dictInsert _ _ _, rfl, ?_⟩
    simp
  · intro cfg hnone hcfg hadk hres
    unfold processQuery
    rw [hsess, hsel]
    dsimp only
    rw [hnone]
    dsimp only
    unfold initializeAgentInSession
    rw [hcfg]
    dsimp only
    rw [hadk, if_pos rfl, hres]
    dsimp only [catchQueryError]
    refine ⟨rfl, _, dictGet_dictInsert _ _ _, rfl, ?_⟩
    simp

/-- C6 counterexample.  With a session resolved but no agents configured,
`_select_primary_agent` raises outside the `try` block: the call
propagates the `ValueError` instead of returning a structured error
response, and the session history holds the user entry but no
system-role error entry. -/
theorem C6_selection_error_propagates_cex :
    (processQuery (fun _ => .error "no adk") (fun _ _ _ => .error "down")
        cexOrchEmpty "s1" "hi" [] "t1").1 =
      .error "No agents available for processing query" ∧
    ((dictGet (processQuery (fun _ => .error "no adk") (fun _ _ _ => .error "down")
        cexOrchEmpty "s1" "hi" [] "t1").2.active_sessions "s1").map
      (fun s => s.history.map (fun m => m.role))) = some ["user"] := by
  exact ⟨rfl, rfl⟩

/-- C6 witness: the recovery theorem on a concrete state whose provider
call always fails, for an already-initialized adk agent. -/
theorem C6_provider_failure_recovered_witness :
    (processQuery (fun _ => .ok "x") (fun _ _ _ => .error "provider down")
        witOrch "s9" "q" [] "t2").1 =
      .ok (.failure "Failed to process query: provider down" "s9") :=
  ((C6_provider_failure_recovered (fun _ => .ok "x")
      (fun _ _ _ => .error "provider down") witOrch "s9" "q" [] "t2" witSession "ag"
      "provider down" rfl rfl).1
    { provider := "adk", external_id := some "x", name := "A" }
    rfl rfl (fun _ _ _ => rfl)).1

/-- C7 (confirmed).  The cache fingerprint is invariant under query
case and leading/trailing-whitespace differences and under arbitrary
changes to context keys other than `user_id` and `session_id`: if the
two queries agree after lower-casing and stripping and the two contexts
agree on `user_id` and `session_id`, the fingerprints (`key_data`
strings, of which the stored MD5 key is a deterministic function) are
equal. -/
theorem C7_fingerprint_invariance (q1 q2 : String) (ctx1 ctx2 : List (String × Json))
    (hq : (pyStrip q1.toList).map pyLowerChar = (pyStrip q2.toList).map pyLowerChar)
    (hu : dictGet ctx1 "user_id" = dictGet ctx2 "user_id")
    (hs : dictGet ctx1 "session_id" = dictGet ctx2 "session_id") :
    generateCacheKeyData q1 ctx1 = generateCacheKeyData q2 ctx2 := by
  unfold generateCacheKeyData
  rw [hu, hs, pyStrip_map_pyLowerChar, pyStrip_map_pyLowerChar, hq]

/-- C7 witness: two requests differing in query case/whitespace and in
an irrelevant context key produce the same fingerprint. -/
theorem C7_fingerprint_invariance_witness :
    generateCacheKeyData "  Hello World  " [("user_id", .str "u"), ("ts", .int 5)] =
      generateCacheKeyData "hello world" [("user_id", .str "u")] :=
  C7_fingerprint_invariance _ _ _ _ (by decide) (by decide) (by decide)

/-- C8 (amended).  Fixed-size chunking returns at least one chunk for
every non-empty input (with valid parameters `0 ≤ O < S`).  Recursive
chunking does `not` guarantee this for every non-empty input — it
returns the empty sequence for whitespace-only text (see the
counterexample), because whitespace-only pieces are skipped — but it
does return at least one chunk whenever the text contains a
non-whitespace character and no `'#'` (so that the section regex leaves
the text intact). -/
theorem C8_chunking_nonempty (content : List Char) (S O size : ℕ) :
    (O < S → content ≠ [] →
      ∃ chunks, fixedSizeChunking content S O = some chunks ∧ chunks ≠ []) ∧
    ('#' ∉ content → (∃ c ∈ content, isPySpace c = false) →
      recursiveChunking content size ≠ []) := by
  constructor
  · intro hOS hne
    obtain ⟨chunks, hc⟩ := fixedChunkLoop_some content hOS (content.length + 1) 0 (by omega)
    have hlen : 0 < content.length := List.length_pos.mpr hne
    exact ⟨chunks, hc, fixedChunkLoop_ne_nil hc hlen⟩
  · exact recursiveChunking_ne_nil

/-- C8 counterexample.  The single-space text is non-empty, yet
`_recursive_chunking` returns no chunks for it (with the default
`chunk_size = 1000`), refuting the never-empty-for-non-empty-input
contract for the recursive strategy. -/
theorem C8_recursive_whitespace_empty_cex :
    recursiveChunking [' '] 1000 = [] ∧ ([' '] : List Char) ≠ [] := by
  exact ⟨by decide, by decide⟩

/-- C8 witness: both halves of the amended theorem on the text "hi". -/
theorem C8_chunking_nonempty_witness :
    (∃ chunks, fixedSizeChunking "hi".toList 4 1 = some chunks ∧ chunks ≠ []) ∧
    recursiveChunking "hi".toList 1000 ≠ [] :=
  ⟨(C8_chunking_nonempty "hi".toList 4 1 1000).1 (by decide) (by decide),
   (C8_chunking_nonempty "hi".toList 4 1 1000).2 (by decide) (by decide)⟩

/-- C9 (code bug).  An unknown chunking strategy does fail: the mvp
dispatch raises `ValueError("Unknown chunking strategy: ...")` and the
src/src dispatch raises `UNSUPPORTED_CHUNKING_STRATEGY`.  But a zero
`chunk_size` is `not` rejected with any error: neither implementation
validates the size, and both fixed-size loops run forever on it — the
fuel-indexed embeddings return `none` (non-termination) for every fuel
on the two-character text "ab" with `chunk_size = 0` and the source
overlap defaults (200 resp. 50). -/
theorem C9_strategy_error_and_size_divergence :
    (chunkDocumentError "bogus" = some "UNSUPPORTED_CHUNKING_STRATEGY") ∧
    (mvpProcessDocumentChunks "bogus" "ab".toList =
      .error "Unknown chunking strategy: bogus") ∧
    (∀ fuel, fixedChunkLoop ['a', 'b'] 0 200 fuel 0 = none) ∧
    (∀ fuel, mvpFixedChunkLoop ['a', 'b'] 0 50 fuel 0 = none) := by
  refine ⟨by decide, rfl, ?_, ?_⟩
  · intro fuel
    induction fuel with
    | zero => rfl
    | succ n ih => simp [fixedChunkLoop, ih]
  · intro fuel
    induction fuel with
    | zero => rfl
    | succ n ih => simp [mvpFixedChunkLoop, ih]

/-- C10 (confirmed).  Every result returned by `MockVectorDB.search` for
a request with a non-empty metadata filter satisfies the filter: each
filter key is present in the returned document's metadata with exactly
the filtered value (for both the embedding and the text search paths,
and for every random draw). -/
theorem C10_filter_soundness (rand : ℕ → ℚ) (db : List (String × VectorDBDocument))
    (req : SearchRequest) (hf : req.filter ≠ []) :
    ∀ r ∈ mockSearch rand db req, ∀ kv ∈ req.filter,
      dictGet r.document.metadata kv.1 = some kv.2 := by
  intro r hr kv hkv
  unfold mockSearch at hr
  by_cases hq : pyTruthyList req.query_embedding
  · rw [if_pos hq] at hr
    obtain ⟨r0, hr0, hdoc, _⟩ := mem_rerank hr
    have hmem := mem_stableSortDesc (mem_pyTake hr0)
    have := mockScanEmb_filtered hf db 0 0 r0 hmem
    rw [hdoc]
    exact matchesFilter_dictGet this kv hkv
  · rw [if_neg hq] at hr
    obtain ⟨r0, hr0, hdoc, _⟩ := mem_rerank hr
    have hmem := mem_stableSortDesc (mem_pyTake hr0)
    have := mockScanText_filtered hf db 0 0 r0 hmem
    rw [hdoc]
    exact matchesFilter_dictGet this kv hkv

/-- C10 witness: a concrete filtered search whose returned document
carries exactly the filtered metadata value. -/
theorem C10_filter_soundness_witness :
    witFilterReq.filter ≠ [] ∧
    dictGet cexDocB.metadata "topic" = some (Json.str "grass") := by
  refine ⟨by decide, ?_⟩
  have hmem : ({ document := cexDocB, score := 1, rank := 1 } : SearchResult) ∈
      mockSearch (fun _ => 1) [("a", cexDocA), ("b", cexDocB)] witFilterReq := by
    norm_num [mockSearch, stableSortDesc, mockScanEmb, insertDesc, pyTruthyList,
      cexDocA, cexDocB, witFilterReq, matchesFilter, dictGet, pyTake, rerank,
      List.mapIdx, List.mapIdx.go]
  exact C10_filter_soundness (fun _ => 1) [("a", cexDocA), ("b", cexDocB)]
    witFilterReq (by decide) _ hmem ("topic", Json.str "grass") (by decide)
